import Mathlib

/-!
Verification of the log-analyzer agent's core: a shallow embedding, in Lean,
of the repository's log parser, issue grouper, analysis/remediation stage
adapters and workflow routing, together with theorems settling the frozen
claims about them.

Modelling conventions used throughout:

* Python strings are modelled as `List Char`; only the ASCII behaviour of the
  character classes of Python's `re` module (`\s`, `\w`, `\d`) and of
  `str.strip`/`str.upper`/`str.lower` is modelled, since the log grammar and
  every claim only exercise ASCII text.
* Machine integers are modelled as `Nat`/`Int` (Python integers are unbounded,
  so no wrap-around is modelled); Python floats are modelled as exact rationals
  wrapped in `PyFloat` (the claims only mention the exactly representable
  values 0.0, 0.5 and 1.0, so rounding is never exercised).
* Fallible Python code (code that can raise) is modelled with `Except`;
  external collaborators (LLM calls, the GitHub MCP client, the filesystem)
  are modelled as explicit oracle records passed to the embedded functions,
  following the collaborator contracts the code calls into.
-/

namespace LogAgent

/-! ### Python character classes and string helpers (ASCII fragment) -/

/-- Python `str.isspace` / regex `\s` on ASCII: space, tab, newline,
carriage return, vertical tab, form feed. -/
def pySpace (c : Char) : Bool :=
  c = ' ' || c = '\t' || c = '\n' || c = '\r' || c = Char.ofNat 11 || c = Char.ofNat 12

/-- Regex `\d` on ASCII. -/
def pyDigit (c : Char) : Bool :=
  '0' ≤ c && c ≤ '9'

/-- Regex `\w` on ASCII: letters, digits, underscore. -/
def pyWord (c : Char) : Bool :=
  ('a' ≤ c && c ≤ 'z') || ('A' ≤ c && c ≤ 'Z') || pyDigit c || c = '_'

/-- Python `str.strip()` (ASCII whitespace fragment). -/
def pyStrip (cs : List Char) : List Char :=
  ((cs.dropWhile pySpace).reverse.dropWhile pySpace).reverse

/-- Python `str.upper()` (ASCII fragment). -/
def pyUpper (cs : List Char) : List Char :=
  cs.map Char.toUpper

/-- Python `str.lower()` (ASCII fragment). -/
def pyLower (cs : List Char) : List Char :=
  cs.map Char.toLower

/-- Abbreviation turning a Lean string literal into the `List Char` model of a
Python string. -/
def toL (s : String) : List Char :=
  s.toList

/-- Python `content.split(sep)` for a one-character separator: the pieces
between occurrences of the separator, empty pieces kept. -/
def pySplitOn (sep : Char) : List Char → List (List Char)
  | [] => [[]]
  | c :: rest =>
    let tail := pySplitOn sep rest
    if c = sep then [] :: tail
    else match tail with
      | [] => [[c]]
      | piece :: more => (c :: piece) :: more

/-- Python `sep.join(pieces)` for a one-character separator. -/
def pyJoin (sep : Char) : List (List Char) → List Char
  | [] => []
  | [piece] => piece
  | piece :: rest => piece ++ sep :: pyJoin sep rest

/-- The numeric value of a list of decimal digit characters, as Python
`int(...)` computes it for a string of digits (leading zeros allowed). -/
def digitsToNat (ds : List Char) : Nat :=
  ds.foldl (fun n c => n * 10 + (c.toNat - 48)) 0

/-- Decimal rendering of a natural number, as Python `str(n)` / f-string
formatting of a nonnegative int. -/
def natToDec (n : Nat) : List Char :=
  Nat.toDigits 10 n

/-! ### Log Entry model (src/agent/models/log_entry.py) -/

/-- One parsed log line (`LogEntry` dataclass). -/
structure LogEntry where
  timestamp : List Char
  level : List Char
  source_file : List Char
  line_number : Nat
  function_name : List Char
  thread_id : List Char
  message : List Char
  raw_line : List Char
  deriving DecidableEq, Repr

instance : Inhabited LogEntry :=
  ⟨⟨[], [], [], 0, [], [], [], []⟩⟩

/-- `LogEntry.is_error`: level is ERROR or CRITICAL. -/
def LogEntry.is_error (e : LogEntry) : Bool :=
  e.level = toL "ERROR" || e.level = toL "CRITICAL"

/-- `LogEntry.is_critical`. -/
def LogEntry.is_critical (e : LogEntry) : Bool :=
  e.level = toL "CRITICAL"

/-- `LogEntry.to_context_string`: the rendering used to build the LLM
context block. -/
def LogEntry.to_context_string (e : LogEntry) : List Char :=
  toL "[" ++ e.level ++ toL "] " ++ e.source_file ++ ':' :: natToDec e.line_number
    ++ toL " in " ++ e.function_name ++ toL "() - " ++ e.message

/-! ### Log parser (src/agent/nodes/log_parser.py)

`LOG_PATTERN` is the anchored regex

    ^(\d{2}:\d{2}:\d{2}\.\d{3})\s+(\w+)\s+(\S+)\s+(\d{4})\s+(\S+)\s+(\d+)\s*(.*)$

Its greedy left-to-right match is deterministic: every greedy multi-character
group (`\s+`, `\w+`, `\S+`, `\d+`) is followed by a character class disjoint
from its own, so Python's backtracking can never recover from a failure of
the maximal-munch path, and the maximal-munch parse below computes exactly
the groups Python's `re.match` produces. -/

/-- A maximal nonempty prefix of characters satisfying `p` (one greedy
`X+` regex group): `none` when the first character does not satisfy `p`. -/
def takeWhile1 (p : Char → Bool) (cs : List Char) : Option (List Char × List Char) :=
  match cs with
  | [] => none
  | c :: rest =>
    if p c then
      some (c :: rest.takeWhile p, rest.dropWhile p)
    else none

/-- The seven capture groups of `LOG_PATTERN`. -/
structure LogGroups where
  timestamp : List Char
  level : List Char
  source_file : List Char
  line_digits : List Char
  function_name : List Char
  thread_id : List Char
  message : List Char
  deriving DecidableEq, Repr

/-- Group 1 of `LOG_PATTERN`: `\d{2}:\d{2}:\d{2}\.\d{3}`, twelve characters of
fixed shape. -/
def parseTimestamp (cs : List Char) : Option (List Char × List Char) :=
  match cs with
  | c1 :: c2 :: k1 :: c3 :: c4 :: k2 :: c5 :: c6 :: d :: c7 :: c8 :: c9 :: rest =>
    if pyDigit c1 && pyDigit c2 && k1 = ':' && pyDigit c3 && pyDigit c4 && k2 = ':'
        && pyDigit c5 && pyDigit c6 && d = '.' && pyDigit c7 && pyDigit c8 && pyDigit c9
    then some ([c1, c2, k1, c3, c4, k2, c5, c6, d, c7, c8, c9], rest)
    else none
  | _ => none

/-- Group 4 of `LOG_PATTERN`: exactly four decimal digits. -/
def parseFourDigits (cs : List Char) : Option (List Char × List Char) :=
  match cs with
  | d1 :: d2 :: d3 :: d4 :: rest =>
    if pyDigit d1 && pyDigit d2 && pyDigit d3 && pyDigit d4 then
      some ([d1, d2, d3, d4], rest)
    else none
  | _ => none

/-- The full match of `LOG_PATTERN` against a (stripped) line: the seven
capture groups, or `none` when the line fails the fixed-field grammar. -/
def matchLogPattern (cs : List Char) : Option LogGroups := do
  let (ts, r1) ← parseTimestamp cs
  let (_, r2) ← takeWhile1 pySpace r1
  let (lvl, r3) ← takeWhile1 pyWord r2
  let (_, r4) ← takeWhile1 pySpace r3
  let (file, r5) ← takeWhile1 (fun c => !pySpace c) r4
  let (_, r6) ← takeWhile1 pySpace r5
  let (digits, r7) ← parseFourDigits r6
  let (_, r8) ← takeWhile1 pySpace r7
  let (func, r9) ← takeWhile1 (fun c => !pySpace c) r8
  let (_, r9w) ← takeWhile1 pySpace r9
  let (tid, r10) ← takeWhile1 pyDigit r9w
  let msg := r10.dropWhile pySpace
  pure ⟨ts, lvl, file, digits, func, tid, msg⟩

/-- All characters of the list satisfy the class `p`. -/
def allP (p : Char → Bool) (l : List Char) : Prop :=
  ∀ c ∈ l, p c = true

/-- The shape of `LOG_PATTERN`'s first group, `\d{2}:\d{2}:\d{2}\.\d{3}`. -/
def TsShape (ts : List Char) : Prop :=
  ∃ d1 d2 d3 d4 d5 d6 d7 d8 d9 : Char,
    ts = [d1, d2, ':', d3, d4, ':', d5, d6, '.', d7, d8, d9]
    ∧ allP pyDigit [d1, d2, d3, d4, d5, d6, d7, d8, d9]

/-- The fixed-field grammar of `LOG_PATTERN`, stated declaratively: the line
splits into the seven fields separated by nonempty whitespace runs (with an
optional whitespace run before the free-text message), each field drawn from
its character class.  This is the regex as a nondeterministic decomposition;
the theorem for claim C5 proves it equivalent to the deterministic
maximal-munch matcher `matchLogPattern`, which justifies the greedy
embedding.  (Python's `.` and `$` treat a newline specially, but
`parse_log_line` only ever matches stripped, newline-free lines.) -/
def MatchesLogPattern (cs : List Char) : Prop :=
  ∃ ts w1 lvl w2 file w3 dig w4 func w5 tid w6 msg : List Char,
    cs = ts ++ w1 ++ lvl ++ w2 ++ file ++ w3 ++ dig ++ w4 ++ func ++ w5 ++ tid ++ w6 ++ msg
    ∧ TsShape ts
    ∧ w1 ≠ [] ∧ allP pySpace w1
    ∧ lvl ≠ [] ∧ allP pyWord lvl
    ∧ w2 ≠ [] ∧ allP pySpace w2
    ∧ file ≠ [] ∧ allP (fun c => !pySpace c) file
    ∧ w3 ≠ [] ∧ allP pySpace w3
    ∧ dig.length = 4 ∧ allP pyDigit dig
    ∧ w4 ≠ [] ∧ allP pySpace w4
    ∧ func ≠ [] ∧ allP (fun c => !pySpace c) func
    ∧ w5 ≠ [] ∧ allP pySpace w5
    ∧ tid ≠ [] ∧ allP pyDigit tid
    ∧ allP pySpace w6

/-- `parse_log_line`: strip the line, fail on blank lines and lines that do
not match `LOG_PATTERN`, otherwise build the `LogEntry` (level upper-cased,
line number via `int(...)`, message stripped, the stripped line kept as
`raw_line`).  The Python `except (ValueError, IndexError)` clause is dead
code — group 4 is always four digits, so `int` cannot fail — which the
theorem for claim C5 makes precise. -/
def parse_log_line (line : List Char) : Option LogEntry :=
  let s := pyStrip line
  if s = [] then none
  else
    match matchLogPattern s with
    | none => none
    | some g =>
      some
        { timestamp := g.timestamp
          level := pyUpper g.level
          source_file := g.source_file
          line_number := digitsToNat g.line_digits
          function_name := g.function_name
          thread_id := g.thread_id
          message := pyStrip g.message
          raw_line := s }

/-- `parse_log_content`: split on newlines and keep the lines that parse. -/
def parse_log_content (content : List Char) : List LogEntry :=
  (pySplitOn '\n' content).filterMap parse_log_line

/-- `extract_errors`: the ERROR/CRITICAL entries, order preserved. -/
def extract_errors (entries : List LogEntry) : List LogEntry :=
  entries.filter (fun e => e.is_error)

/-- The index of the first entry whose `raw_line` equals `raw`
(the `next(i for i, e in enumerate(...) if e.raw_line == ...)` search). -/
def firstRawIdx (raw : List Char) : List LogEntry → Option Nat
  | [] => none
  | e :: rest =>
    if e.raw_line = raw then some 0
    else (firstRawIdx raw rest).map (· + 1)

/-- `group_related_entries`: filter to the target's thread, locate the target
by exact `raw_line` match (falling back to `[target]`), and return the slice
from `context_lines` entries before to `context_lines` entries after it,
clipped to bounds (`same_thread[max(0, i - r) : min(len, i + r + 1)]`). -/
def group_related_entries (entries : List LogEntry) (target : LogEntry)
    (context_lines : Nat) : List LogEntry :=
  let same_thread := entries.filter (fun e => e.thread_id = target.thread_id)
  match firstRawIdx target.raw_line same_thread with
  | none => [target]
  | some idx =>
    let start := idx - context_lines
    let stop := min same_thread.length (idx + context_lines + 1)
    (same_thread.drop start).take (stop - start)

/-- The composite grouping key `f"{source_file}:{function_name}"` of
`group_errors_by_context`. -/
def bucketKey (e : LogEntry) : List Char :=
  e.source_file ++ ':' :: e.function_name

/-- One step of the Python dict-based bucketing: append the entry to its
key's bucket, creating the bucket at the end on first occurrence of the key
(Python dicts preserve insertion order). -/
def addToBuckets (bs : List (List Char × List LogEntry)) (e : LogEntry) :
    List (List Char × List LogEntry) :=
  if bs.any (fun b => b.1 = bucketKey e) then
    bs.map (fun b => if b.1 = bucketKey e then (b.1, b.2 ++ [e]) else b)
  else bs ++ [(bucketKey e, [e])]

/-- `group_errors_by_context`: `[]` for no errors, otherwise the buckets of
the insertion-ordered dict, in key-first-occurrence order.  The `entries`
argument is accepted and unused, exactly as in the source. -/
def group_errors_by_context (entries errors : List LogEntry) :
    List (List LogEntry) :=
  if errors.isEmpty then []
  else (errors.foldl addToBuckets []).map Prod.snd

/-- `get_full_context_for_group`: every entry whose thread id occurs in the
group, in original order. -/
def get_full_context_for_group (entries : List LogEntry)
    (error_group : List LogEntry) : List LogEntry :=
  entries.filter (fun e => error_group.any (fun g => g.thread_id = e.thread_id))

/-! ### JSON values and Python `json.loads` (used by `_parse_llm_response`)

Python floats are modelled as exact rationals; `NaN`, `Infinity` and
`-Infinity` (which Python's `json` accepts) get constructors of their own.
Lone surrogate `\uXXXX` escapes and the interpreter's recursion limit are
not modelled (no claim exercises them). -/

/-- An opening curly brace (written via its code point to keep brace
characters out of string literals). -/
def lbrace : Char := Char.ofNat 123

/-- A closing curly brace. -/
def rbrace : Char := Char.ofNat 125

/-- A Python value as produced by `json.loads`. -/
inductive Json where
  | null : Json
  | bool (b : Bool) : Json
  | num (q : Rat) : Json
  | nan : Json
  | inf (neg : Bool) : Json
  | str (s : List Char) : Json
  | arr (xs : List Json) : Json
  | obj (kvs : List (List Char × Json)) : Json

instance : Inhabited Json := ⟨Json.null⟩

/-- JSON whitespace (the characters Python's `json` scanner skips). -/
def jsonWs (c : Char) : Bool :=
  c = ' ' || c = '\t' || c = '\n' || c = '\r'

/-- Drop leading JSON whitespace. -/
def skipWs (cs : List Char) : List Char :=
  cs.dropWhile jsonWs

/-- Value of a hexadecimal digit. -/
def hexVal (c : Char) : Option Nat :=
  if '0' ≤ c && c ≤ '9' then some (c.toNat - 48)
  else if 'a' ≤ c && c ≤ 'f' then some (c.toNat - 87)
  else if 'A' ≤ c && c ≤ 'F' then some (c.toNat - 55)
  else none

/-- The character denoted by a single-character JSON string escape. -/
def escChar (c : Char) : Option Char :=
  if c = '"' then some '"'
  else if c = '\\' then some '\\'
  else if c = '/' then some '/'
  else if c = 'b' then some (Char.ofNat 8)
  else if c = 'f' then some (Char.ofNat 12)
  else if c = 'n' then some '\n'
  else if c = 'r' then some '\r'
  else if c = 't' then some '\t'
  else none

/-- The body of a JSON string, after its opening quote: the decoded
characters and the remainder after the closing quote.  Unescaped control
characters are rejected (Python's strict mode). -/
def jsonString : List Char → Option (List Char × List Char)
  | [] => none
  | c :: rest =>
    if c = '"' then some ([], rest)
    else if c = '\\' then
      match rest with
      | [] => none
      | e :: rest2 =>
        if e = 'u' then
          match rest2 with
          | h1 :: h2 :: h3 :: h4 :: rest3 =>
            match hexVal h1, hexVal h2, hexVal h3, hexVal h4 with
            | some a, some b, some c3, some d =>
              (jsonString rest3).map
                (fun p => (Char.ofNat (a * 4096 + b * 256 + c3 * 16 + d) :: p.1, p.2))
            | _, _, _, _ => none
          | _ => none
        else
          match escChar e with
          | some ch => (jsonString rest2).map (fun p => (ch :: p.1, p.2))
          | none => none
    else if c.toNat < 32 then none
    else (jsonString rest).map (fun p => (c :: p.1, p.2))

/-- The exponent part of a JSON number, when present and well formed;
otherwise consumes nothing (the scanner then fails on the leftover text,
as Python's regex-based number match does). -/
def parseExpPart (cs : List Char) : Int × List Char :=
  match cs with
  | e :: s :: rest =>
    if e = 'e' || e = 'E' then
      if s = '+' then
        match rest.takeWhile pyDigit with
        | [] => (0, cs)
        | ds => ((digitsToNat ds : Int), rest.dropWhile pyDigit)
      else if s = '-' then
        match rest.takeWhile pyDigit with
        | [] => (0, cs)
        | ds => (-(digitsToNat ds : Int), rest.dropWhile pyDigit)
      else
        match (s :: rest).takeWhile pyDigit with
        | [] => (0, cs)
        | ds => ((digitsToNat ds : Int), (s :: rest).dropWhile pyDigit)
    else (0, cs)
  | [e] =>
    if e = 'e' || e = 'E' then (0, cs) else (0, cs)
  | [] => (0, cs)

/-- The fraction part of a JSON number, when present and well formed;
otherwise consumes nothing. -/
def parseFracPart (cs : List Char) : Rat × List Char :=
  match cs with
  | '.' :: rest =>
    match rest.takeWhile pyDigit with
    | [] => (0, cs)
    | ds => ((digitsToNat ds : Rat) / (10 : Rat) ^ ds.length, rest.dropWhile pyDigit)
  | _ => (0, cs)

/-- A JSON number after an optional leading minus sign: integer part (a lone
`0`, or a nonzero digit followed by digits — surplus digits after a leading
zero are left over and make the surrounding parse fail, as Python's number
regex does), then optional fraction and exponent. -/
def jsonNumber (neg : Bool) (cs : List Char) : Option (Json × List Char) :=
  match cs with
  | [] => none
  | c :: rest =>
    if pyDigit c then
      let ds := if c = '0' then [c] else c :: rest.takeWhile pyDigit
      let r1 := if c = '0' then rest else rest.dropWhile pyDigit
      let (fq, r2) := parseFracPart r1
      let (ev, r3) := parseExpPart r2
      let q : Rat := ((digitsToNat ds : Rat) + fq) * (10 : Rat) ^ ev
      some (Json.num (if neg then -q else q), r3)
    else none

mutual

/-- One JSON value (fuelled recursive-descent scanner mirroring Python's
`json.loads` grammar, `NaN`/`Infinity` constants included). -/
def jsonValue : Nat → List Char → Option (Json × List Char)
  | 0, _ => none
  | _ + 1, [] => none
  | fuel + 1, c :: rest =>
    if c = lbrace then
      match skipWs rest with
      | d :: r2 =>
        if d = rbrace then some (Json.obj [], r2)
        else jsonMembers fuel (d :: r2) |>.map (fun p => (Json.obj p.1, p.2))
      | [] => none
    else if c = '[' then
      match skipWs rest with
      | ']' :: r2 => some (Json.arr [], r2)
      | r2 => jsonItems fuel r2 |>.map (fun p => (Json.arr p.1, p.2))
    else if c = '"' then
      (jsonString rest).map (fun p => (Json.str p.1, p.2))
    else if c = 't' then
      match rest with
      | 'r' :: 'u' :: 'e' :: r2 => some (Json.bool true, r2)
      | _ => none
    else if c = 'f' then
      match rest with
      | 'a' :: 'l' :: 's' :: 'e' :: r2 => some (Json.bool false, r2)
      | _ => none
    else if c = 'n' then
      match rest with
      | 'u' :: 'l' :: 'l' :: r2 => some (Json.null, r2)
      | _ => none
    else if c = 'N' then
      match rest with
      | 'a' :: 'N' :: r2 => some (Json.nan, r2)
      | _ => none
    else if c = 'I' then
      match rest with
      | 'n' :: 'f' :: 'i' :: 'n' :: 'i' :: 't' :: 'y' :: r2 => some (Json.inf false, r2)
      | _ => none
    else if c = '-' then
      match rest with
      | 'I' :: 'n' :: 'f' :: 'i' :: 'n' :: 'i' :: 't' :: 'y' :: r2 => some (Json.inf true, r2)
      | r2 => jsonNumber true r2
    else jsonNumber false (c :: rest)

/-- The members of a JSON object, positioned at the first key; consumes the
closing brace. -/
def jsonMembers : Nat → List Char → Option (List (List Char × Json) × List Char)
  | 0, _ => none
  | fuel + 1, cs =>
    match cs with
    | '"' :: rest => do
      let (k, r1) ← jsonString rest
      match skipWs r1 with
      | ':' :: r2 => do
        let (v, r3) ← jsonValue fuel (skipWs r2)
        match skipWs r3 with
        | ',' :: r4 => do
          let (kvs, r5) ← jsonMembers fuel (skipWs r4)
          pure ((k, v) :: kvs, r5)
        | d :: r4 =>
          if d = rbrace then pure ([(k, v)], r4) else none
        | [] => none
      | _ => none
    | _ => none

/-- The items of a JSON array, positioned at the first item; consumes the
closing bracket. -/
def jsonItems : Nat → List Char → Option (List Json × List Char)
  | 0, _ => none
  | fuel + 1, cs => do
    let (v, r1) ← jsonValue fuel cs
    match skipWs r1 with
    | ',' :: r2 => do
      let (vs, r3) ← jsonItems fuel (skipWs r2)
      pure (v :: vs, r3)
    | ']' :: r2 => pure ([v], r2)
    | _ => none

end

/-- Python `json.loads`: parse one value, allow surrounding whitespace,
reject leftover text.  The fuel `2 * length + 2` dominates the scanner's
recursion depth. -/
def jsonLoads (cs : List Char) : Option Json :=
  match jsonValue (2 * cs.length + 2) (skipWs cs) with
  | some (v, rest) => if skipWs rest = [] then some v else none
  | none => none

/-! ### `_parse_llm_response` and the Analysis stage
(src/agent/nodes/error_analyzer.py) -/

/-- Python `text.startswith(pre)`. -/
def pyStartsWith (cs pre : List Char) : Bool :=
  cs.take pre.length = pre

/-- Python `text.endswith(suf)`. -/
def pyEndsWith (cs suf : List Char) : Bool :=
  suf.length ≤ cs.length && cs.drop (cs.length - suf.length) = suf

/-- The body of the first regex match of `\{[^{}]*\}` starting right after an
opening brace: the characters up to the next brace, which must be closing. -/
def braceScan : List Char → List Char → Option (List Char)
  | [], _ => none
  | c :: rest, acc =>
    if c = rbrace then some acc.reverse
    else if c = lbrace then none
    else braceScan rest (c :: acc)

/-- `re.search(r'\{[^{}]*\}', text, re.DOTALL)`: the leftmost substring that
opens with a brace, holds no brace inside, and closes with one. -/
def braceSearch : List Char → Option (List Char)
  | [] => none
  | c :: rest =>
    if c = lbrace then
      match braceScan rest [] with
      | some body => some (lbrace :: body ++ [rbrace])
      | none => braceSearch rest
    else braceSearch rest

/-- The hard-coded analysis dictionary `_parse_llm_response` falls back to
when the response cannot be parsed. -/
def fallbackAnalysis : Json :=
  Json.obj
    [ (toL "error_type", Json.str (toL "unknown"))
    , (toL "is_code_issue", Json.bool true)
    , (toL "root_cause", Json.str (toL "Failed to parse LLM response"))
    , (toL "suggested_approach", Json.str (toL "Manual analysis required"))
    , (toL "confidence", Json.num 0) ]

/-- The text `_parse_llm_response` hands to `json.loads`: the response
stripped, with one leading ```` ```json ```` or ```` ``` ```` fence and one
trailing ```` ``` ```` fence peeled, stripped again. -/
def fenceStrippedText (response : List Char) : List Char :=
  let text0 := pyStrip response
  let text1 :=
    if pyStartsWith text0 (toL "```json") then text0.drop 7
    else if pyStartsWith text0 (toL "```") then text0.drop 3
    else text0
  let text2 :=
    if pyEndsWith text1 (toL "```") then text1.take (text1.length - 3) else text1
  pyStrip text2

/-- `_parse_llm_response`: strip and peel fences, try `json.loads`, then the
brace-regex fallback, then the default dictionary. -/
def parseLlmResponse (response : List Char) : Json :=
  match jsonLoads (fenceStrippedText response) with
  | some j => j
  | none =>
    match braceSearch (fenceStrippedText response) with
    | some sub => (jsonLoads sub).getD fallbackAnalysis
    | none => fallbackAnalysis

/-- The `ErrorType` enum of src/agent/models/error_report.py. -/
inductive ErrorType where
  | code_bug | string_handling | null_pointer | missing_config | missing_data
  | database_error | cache_error | external_service | unknown
  deriving DecidableEq, Repr

/-- `_error_type_from_string`: the lower-cased string looked up in the
name-to-enum mapping, `UNKNOWN` as default. -/
def errorTypeFromString (s : List Char) : ErrorType :=
  let t := pyLower s
  if t = toL "code_bug" then .code_bug
  else if t = toL "string_handling" then .string_handling
  else if t = toL "null_pointer" then .null_pointer
  else if t = toL "missing_config" then .missing_config
  else if t = toL "missing_data" then .missing_data
  else if t = toL "database_error" then .database_error
  else if t = toL "cache_error" then .cache_error
  else if t = toL "external_service" then .external_service
  else .unknown

/-- `_error_type_from_string` applied to a raw dictionary value: a
non-string value makes Python's `.lower()` raise. -/
def errorTypeFromJson : Json → Except (List Char) ErrorType
  | Json.str s => .ok (errorTypeFromString s)
  | _ => .error (toL "AttributeError: lower")

/-- A Python float: an exact rational, or one of the non-finite values. -/
inductive PyFloat where
  | fin (q : Rat) | pinf | ninf | nan
  deriving DecidableEq, Repr

/-- The mantissa of a Python float literal: digits with an optional point
(`12`, `12.`, `12.5`, `.5` — leading zeros allowed). -/
def parseFloatDigits (cs : List Char) : Option (Rat × List Char) :=
  match cs.takeWhile pyDigit with
  | [] =>
    match cs with
    | '.' :: rest =>
      match rest.takeWhile pyDigit with
      | [] => none
      | ds => some ((digitsToNat ds : Rat) / (10 : Rat) ^ ds.length, rest.dropWhile pyDigit)
    | _ => none
  | ds =>
    let r1 := cs.dropWhile pyDigit
    match r1 with
    | '.' :: rest =>
      some ((digitsToNat ds : Rat)
        + (digitsToNat (rest.takeWhile pyDigit) : Rat) / (10 : Rat) ^ (rest.takeWhile pyDigit).length,
        rest.dropWhile pyDigit)
    | _ => some ((digitsToNat ds : Rat), r1)

/-- Python `float(str)`: strip, optional sign, `inf`/`infinity`/`nan`
(case-insensitive) or a decimal mantissa with optional exponent.
Underscore digit separators are not modelled. -/
def parsePyFloat (s : List Char) : Option PyFloat :=
  let t := pyStrip s
  let neg : Bool := match t with | '-' :: _ => true | _ => false
  let body := match t with | '+' :: r => r | '-' :: r => r | r => r
  let low := pyLower body
  if low = toL "inf" || low = toL "infinity" then
    some (if neg then PyFloat.ninf else PyFloat.pinf)
  else if low = toL "nan" then some PyFloat.nan
  else
    match parseFloatDigits body with
    | some (q, r1) =>
      let (ev, r2) := parseExpPart r1
      if r2 = [] then some (.fin ((if neg then -q else q) * (10 : Rat) ^ ev)) else none
    | none => none

/-- Python `float(x)` on a JSON-decoded value. -/
def pyFloatOf : Json → Except (List Char) PyFloat
  | Json.num q => .ok (.fin q)
  | Json.bool b => .ok (.fin (if b then 1 else 0))
  | Json.nan => .ok .nan
  | Json.inf neg => .ok (if neg then PyFloat.ninf else PyFloat.pinf)
  | Json.str s =>
    match parsePyFloat s with
    | some f => .ok f
    | none => .error (toL "ValueError: could not convert string to float")
  | Json.null => .error (toL "TypeError: float() argument must be a string or a real number")
  | Json.arr _ => .error (toL "TypeError: float() argument must be a string or a real number")
  | Json.obj _ => .error (toL "TypeError: float() argument must be a string or a real number")

/-- `dict.get(k, default)` on a dictionary decoded from JSON (later
duplicate keys overwrite earlier ones, so the last occurrence wins). -/
def jsonGetD (kvs : List (List Char × Json)) (k : List Char) (d : Json) : Json :=
  match kvs.reverse.find? (fun kv => kv.1 = k) with
  | some kv => kv.2
  | none => d

/-- The analysis record of src/agent/models/error_report.py.  The
`is_code_issue`, `root_cause` and `suggested_approach` fields store the raw
dictionary values (Python performs no conversion when assigning them). -/
structure ErrorReport where
  primary_error : LogEntry
  related_entries : List LogEntry
  error_type : ErrorType
  is_code_issue : Json
  root_cause : Json
  suggested_approach : Json
  source_code_context : Option (List Char)
  confidence : PyFloat

instance : Inhabited ErrorReport :=
  ⟨⟨default, [], .unknown, Json.null, Json.null, Json.null, none, .nan⟩⟩

/-- The `ErrorReport(...)` construction at the end of `analyze_error_sync`:
the dictionary lookups with their defaults, the enum conversion (which can
raise on a non-string) and the `float(...)` conversion (which can raise on a
non-numeric value), in Python's argument evaluation order. -/
def buildErrorReport (analysis : Json) (primary : LogEntry)
    (related : List LogEntry) (src : Option (List Char)) :
    Except (List Char) ErrorReport :=
  match analysis with
  | Json.obj kvs => do
    let et ← errorTypeFromJson (jsonGetD kvs (toL "error_type") (Json.str (toL "unknown")))
    let conf ← pyFloatOf (jsonGetD kvs (toL "confidence") (Json.num (1 / 2)))
    pure
      { primary_error := primary
        related_entries := related
        error_type := et
        is_code_issue := jsonGetD kvs (toL "is_code_issue") (Json.bool true)
        root_cause := jsonGetD kvs (toL "root_cause") (Json.str (toL "Unknown"))
        suggested_approach := jsonGetD kvs (toL "suggested_approach") (Json.str (toL "Unknown"))
        source_code_context := src
        confidence := conf }
  | _ => .error (toL "AttributeError: get")

/-- The external collaborators of the Analysis stage.  `invoke` is the LLM
call, keyed by the variable content of the analyzer prompt (the rendered
log-context block and the optional source snippet; the constant prompt
template around them is absorbed into the oracle), returning the response
text or raising.  `getSourceCode` is `_get_source_code(file, source_dir)`,
the Source Lookup collaborator (GitHub MCP with local-filesystem fallback):
absence is a normal outcome. -/
structure LlmEnv where
  invoke : List Char → Option (List Char) → Except (List Char) (List Char)
  getSourceCode : List Char → List Char → Option (List Char)

/-- `analyze_error_sync`: windowed context, source lookup, LLM call,
response parsing, report construction.  An exception from the LLM call (or
from the report construction) propagates — there is no handler here. -/
def analyze_error_sync (env : LlmEnv) (error_entry : LogEntry)
    (all_entries : List LogEntry) (source_dir : List Char) :
    Except (List Char) ErrorReport := do
  let related := group_related_entries all_entries error_entry 5
  let log_context := pyJoin '\n' (related.map LogEntry.to_context_string)
  let source_code := env.getSourceCode error_entry.source_file source_dir
  let resp ← env.invoke log_context source_code
  buildErrorReport (parseLlmResponse resp) error_entry related source_code

/-! ### Fix proposals (src/agent/models/fix_proposal.py, partly absent from
src/; src/agent/nodes/fix_generator.py and
src/agent/nodes/github_integration.py are its callers) -/

/-- The `FixType` enum, with the members named by `_fix_type_from_string` in
src/agent/nodes/fix_generator.py. -/
inductive FixType where
  | code_change | config_change | data_insert | data_update | multiple
  deriving DecidableEq, Repr

/-- One code change record of a fix proposal, with the fields
`fix_generator.py` constructs and `github_integration.py` reads.  Line
numbers are Python ints, so `Int` (the `line_start > 0` guards in
`apply_code_change` see 0 as the "unknown" default). -/
structure CodeChange where
  file_path : List Char
  original_code : List Char
  new_code : List Char
  line_start : Int
  line_end : Int
  explanation : List Char
  deriving DecidableEq, Repr

/-- The fix proposal record, with the fields `fix_generator.py` constructs. -/
structure FixProposal where
  error_summary : List Char
  fix_type : FixType
  title : List Char
  description : List Char
  code_changes : List CodeChange
  config_changes : List (List Char × List Char)
  data_operations : List (List Char)
  manual_instructions : Option (List Char)
  confidence : PyFloat
  risk_level : List Char
  affected_files : List (List Char)
  deriving DecidableEq, Repr

/-- Modelled from the spec: the `requires_pr` property of `FixProposal`
(models/fix_proposal.py is not under src/; only its callers are).  Spec §3:
"a Fix Proposal of kind 'code change' is remediable automatically only if
its Code Change list is non-empty; all other kinds, or an empty Code Change
list, require manual handling and are never submitted through the automatic
remediation path", and the glossary entry "Remediable fix: a Fix Proposal of
kind 'code change' carrying at least one concrete Code Change". -/
def FixProposal.requires_pr (fp : FixProposal) : Bool :=
  fp.fix_type = FixType.code_change && !fp.code_changes.isEmpty

/-- Modelled from the spec: the `get_pr_body` method of `FixProposal`
(models/fix_proposal.py is not under src/).  It renders the proposal as the
pull-request description text; the claims treat that text as opaque, so the
rendering is modelled as the proposal's description. -/
def FixProposal.get_pr_body (fp : FixProposal) : List Char :=
  fp.description

/-! ### GitHub integration (src/agent/nodes/github_integration.py)

The MCP client's synchronous wrappers (`create_branch_sync`,
`push_files_sync`, `create_pull_request_sync`) never raise — they catch all
exceptions and report `False`/`None` — so they are modelled as total
oracles.  `GhAction` records each successful external mutation, which lets
theorems state that no branch, commit or pull request is created. -/

/-- The configuration fields the GitHub node reads (`get_config()` values;
the global singleton is passed explicitly here). -/
structure GhConfig where
  github_token : List Char
  github_repo : List Char
  github_target_branch : List Char
  deriving DecidableEq, Repr

/-- `Config.has_github_access`: `bool(token and repo)`. -/
def GhConfig.has_github_access (c : GhConfig) : Bool :=
  !c.github_token.isEmpty && !c.github_repo.isEmpty

/-- The external boundary of the Remediation stage: the MCP GitHub
operations, the local filesystem (existence test and `read_text`, which can
raise, e.g. on undecodable bytes), and the wall clock that names the fix
branch. -/
structure GhEnv where
  create_branch : List Char → List Char → List Char → List Char → Bool
  push_files : List Char → List Char → List Char → List Char → List Char → List Char → Bool
  create_pull_request : List Char → List Char → List Char → List Char → List Char → List Char → Option (List Char)
  file_exists : List Char → Bool
  read_file : List Char → Except (List Char) (List Char)
  timestamp : List Char

/-- A successful external mutation performed against the code host. -/
inductive GhAction where
  | createdBranch (branch : List Char)
  | pushedFile (branch path content message : List Char)
  | openedPR (title body head base : List Char)
  deriving DecidableEq, Repr

/-- Python's substring test `needle in cs` (an empty needle is contained
everywhere). -/
def containsSub (cs needle : List Char) : Bool :=
  if needle.isPrefixOf cs then true
  else
    match cs with
    | [] => false
    | _ :: rest => containsSub rest needle

/-- Python `content.replace(old, new, 1)`: replace the leftmost occurrence
(an empty pattern matches at the start). -/
def replaceFirst (cs needle repl : List Char) : List Char :=
  if needle.isPrefixOf cs then repl ++ cs.drop needle.length
  else
    match cs with
    | [] => []
    | c :: rest => c :: replaceFirst rest needle repl

/-- `pathlib`'s `root / rel`: keeps `rel` when it is absolute. -/
def pathJoin (root rel : List Char) : List Char :=
  if pyStartsWith rel (toL "/") then rel else root ++ '/' :: rel

/-- The path normalisation of `GitHubIntegration.update_file`: backslashes
to slashes, then one leading `./` and one leading `/` removed. -/
def normalizeGithubPath (p : List Char) : List Char :=
  let p1 := p.map (fun c => if c = '\\' then '/' else c)
  let p2 := if pyStartsWith p1 (toL "./") then p1.drop 2 else p1
  if pyStartsWith p2 (toL "/") then p2.drop 1 else p2

/-- The pure core of `apply_code_change`, applied to the file content the
node has read: exact substring replacement first, then line-range
replacement, then the appended suggestion comment. -/
def apply_code_change_content (content : List Char) (change : CodeChange) :
    List Char :=
  let lines := pySplitOn '\n' content
  let original := pyStrip change.original_code
  let new := change.new_code
  if containsSub content original then replaceFirst content original new
  else if 0 < change.line_start && 0 < change.line_end then
    let start_idx := (change.line_start - 1).toNat
    let end_idx := change.line_end.toNat
    pyJoin '\n' (lines.take start_idx ++ pySplitOn '\n' new ++ lines.drop end_idx)
  else content ++ toL "\n\n/* SUGGESTED FIX:\n" ++ new ++ toL "\n*/\n"

/-- The `for change in fix_proposal.code_changes` loop of `create_pr_node`:
skip changes whose file is absent, otherwise read, transform and push;
the first failure (a read error or a failed push, both raised in the
source) aborts the loop.  Returns the actions performed and the failure
message, if any. -/
def applyChangesLoop (env : GhEnv) (owner repo repo_root branch : List Char) :
    List CodeChange → List GhAction → List GhAction × Option (List Char)
  | [], acc => (acc, none)
  | change :: rest, acc =>
    let fp := pathJoin repo_root change.file_path
    if env.file_exists fp then
      match env.read_file fp with
      | .error e => (acc, some e)
      | .ok content =>
        let newContent := apply_code_change_content content change
        let path2 := normalizeGithubPath change.file_path
        let msg := toL "fix: " ++ change.explanation
        if env.push_files owner repo branch path2 newContent msg then
          applyChangesLoop env owner repo repo_root branch rest
            (acc ++ [GhAction.pushedFile branch path2 newContent msg])
        else (acc, some (toL "Failed to update file: " ++ path2))
    else applyChangesLoop env owner repo repo_root branch rest acc

/-- The `try:` body of `create_pr_node`: construct the integration (whose
constructor raises on a malformed `owner/repo` string), create the branch,
push the changes, open the pull request.  Every raise is reflected as
`Except.error` with the exception's message. -/
def create_pr_try_body (cfg : GhConfig) (env : GhEnv) (repo_root : List Char)
    (fp : FixProposal) : List GhAction × Except (List Char) (List Char) :=
  match pySplitOn '/' cfg.github_repo with
  | [owner, repo] =>
    let branch := toL "fix/auto-" ++ env.timestamp
    if env.create_branch owner repo branch cfg.github_target_branch then
      let acts0 := [GhAction.createdBranch branch]
      match applyChangesLoop env owner repo repo_root branch fp.code_changes [] with
      | (tr, some e) => (acts0 ++ tr, .error e)
      | (tr, none) =>
        match env.create_pull_request owner repo fp.title fp.get_pr_body branch
            cfg.github_target_branch with
        | some url =>
          (acts0 ++ tr ++ [GhAction.openedPR fp.title fp.get_pr_body branch
            cfg.github_target_branch], .ok url)
        | none => (acts0 ++ tr, .error (toL "Failed to create pull request"))
    else ([], .error (toL "Failed to create branch: " ++ branch))
  | _ =>
    ([], .error (toL "Invalid repo_name format: " ++ cfg.github_repo
      ++ toL ". Expected 'owner/repo'"))

/-! ### Workflow state and routing (src/agent/graph.py) -/

/-- The `AgentState` record threaded through the graph.  Keys the entry node
`parse_logs_node` always populates are plain fields; the `state.get(key,
default)` reads of the other nodes see those fields.  The cached `llm`
object is carried by the oracle environments instead of the state, and the
`error_groups`/`current_group_index`/`total_groups` keys that
`parse_logs_node` stores into the dict (beyond the `AgentState` TypedDict
declaration) are included. -/
structure AgentState where
  log_content : List Char
  log_file_path : List Char
  source_dir : List Char
  repo_root : List Char
  log_entries : List LogEntry
  error_entries : List LogEntry
  error_groups : List (List LogEntry)
  current_group_index : Nat
  total_groups : Nat
  current_error_index : Nat
  total_errors : Nat
  current_error_report : Option ErrorReport
  fix_proposal : Option FixProposal
  user_approved : Bool
  user_feedback : List Char
  pr_url : Option (List Char)
  pr_created : Bool
  pr_error : Option (List Char)
  analysis_complete : Bool
  should_continue : Bool

instance : Inhabited AgentState :=
  ⟨⟨[], [], [], [], [], [], [], 0, 0, 0, 0, none, none, false, [], none, false,
    none, false, false⟩⟩

/-- The labels of the `should_continue_processing` conditional edge. -/
inductive ContinueRoute where
  | analyze | done
  deriving DecidableEq, Repr

/-- The labels of the `should_create_pr` conditional edge. -/
inductive PrRoute where
  | create_pr | skip_pr | next_error
  deriving DecidableEq, Repr

/-- The nodes of the graph, plus the `END` sentinel. -/
inductive GraphNode where
  | parse_logs | analyze_error | generate_fix | create_pr | advance_error | «END»
  deriving DecidableEq, Repr

/-- `should_continue_processing`: more errors to process? -/
def should_continue_processing (s : AgentState) : ContinueRoute :=
  if s.current_error_index < s.total_errors then .analyze else .done

/-- `should_create_pr`: route on user approval, then on the proposal's
`requires_pr`. -/
def should_create_pr (s : AgentState) : PrRoute :=
  if !s.user_approved then .next_error
  else
    match s.fix_proposal with
    | none => .skip_pr
    | some fix => if !fix.requires_pr then .skip_pr else .create_pr

/-- `advance_to_next_error`: bump the cursor and clear the per-issue
fields. -/
def advance_to_next_error (s : AgentState) : AgentState :=
  { s with
    current_error_index := s.current_error_index + 1
    current_error_report := none
    fix_proposal := none
    user_approved := false
    pr_url := none
    pr_created := false
    pr_error := none }

/-- The target-node mapping of the conditional edge out of `parse_logs`
(and, identically, out of `advance_error`). -/
def continueRouteTarget : ContinueRoute → GraphNode
  | .analyze => .analyze_error
  | .done => .«END»

/-- The target-node mapping of the conditional edge out of `generate_fix`. -/
def createPrRouteTarget : PrRoute → GraphNode
  | .create_pr => .create_pr
  | .skip_pr => .advance_error
  | .next_error => .advance_error

/-- The unconditional edges `create_agent_graph` adds. -/
def agentGraphEdges : List (GraphNode × GraphNode) :=
  [(.analyze_error, .generate_fix), (.create_pr, .advance_error)]

/-! ### The graph's nodes (parse, analyze, create-pr) as state
transformers -/

/-- `parse_logs_node`: parse from `log_content` (or from the file named by
`log_file_path`, read through the filesystem oracle), extract the errors,
group them, and reset both cursors.  The two `raise` statements (no input,
missing file) are the run-fatal input errors. -/
def parse_logs_node (fs : List Char → Option (List Char)) (s : AgentState) :
    Except (List Char) AgentState := do
  let content ←
    if !s.log_content.isEmpty then pure s.log_content
    else if !s.log_file_path.isEmpty then
      match fs s.log_file_path with
      | some c => pure c
      | none => .error (toL "Log file not found: " ++ s.log_file_path)
    else .error (toL "State must contain either 'log_content' or 'log_file_path'")
  let entries := parse_log_content content
  let errors := extract_errors entries
  let error_groups := group_errors_by_context entries errors
  pure
    { s with
      log_entries := entries
      error_entries := errors
      error_groups := error_groups
      current_group_index := 0
      total_groups := error_groups.length
      current_error_index := 0
      total_errors := errors.length }

/-- `analyze_error_node`: analyze the error entry at the cursor (not an
error group), or mark the analysis complete when the cursor is out of
range.  An exception from `analyze_error_sync` propagates. -/
def analyze_error_node (env : LlmEnv) (s : AgentState) :
    Except (List Char) AgentState :=
  if h : s.current_error_index < s.error_entries.length then do
    let report ← analyze_error_sync env (s.error_entries.get ⟨s.current_error_index, h⟩)
      s.log_entries s.source_dir
    pure { s with current_error_report := some report, analysis_complete := false }
  else
    pure { s with current_error_report := none, analysis_complete := true }

/-- `create_pr_node`: the guarded early returns, then the `try`/`except`
body; every branch populates the three outcome fields, and the `except
Exception` clause maps any raise from the body to a failure outcome.  The
second component lists the external mutations performed. -/
def create_pr_node (cfg : GhConfig) (env : GhEnv) (s : AgentState) :
    AgentState × List GhAction :=
  match s.fix_proposal with
  | none =>
    ({ s with
        pr_created := false
        pr_url := none
        pr_error := some (toL "Fix not approved or no fix available") }, [])
  | some fix =>
    if !s.user_approved then
      ({ s with
          pr_created := false
          pr_url := none
          pr_error := some (toL "Fix not approved or no fix available") }, [])
    else if !fix.requires_pr then
      ({ s with
          pr_created := false
          pr_url := none
          pr_error := some (toL "This fix does not require a PR (config/data change)") }, [])
    else if !cfg.has_github_access then
      ({ s with
          pr_created := false
          pr_url := none
          pr_error := some (toL "GitHub access not configured") }, [])
    else
      match create_pr_try_body cfg env s.repo_root fix with
      | (tr, .ok url) =>
        ({ s with
            pr_created := true
            pr_url := some url
            pr_error := none }, tr)
      | (tr, .error e) =>
        ({ s with
            pr_created := false
            pr_url := none
            pr_error := some e }, tr)

/-! ### Reference characterisation of the grouping, and concrete fixtures
used by the claims -/

/-- Fixture: a filesystem oracle with no files. -/
def fsNone : List Char → Option (List Char) := fun _ => none

/-- Fixture: a log with two ERROR lines sharing one (file, function) key,
so the Parse stage finds two error entries but a single issue (error
group). -/
def twoErrorsOneIssueState : AgentState :=
  { (default : AgentState) with
      log_content := toL "17:13:30.548 ERROR f.cpp 0078 Check 1 boom\n17:13:30.549 ERROR f.cpp 0078 Check 2 boom2" }

/-- Fixture: one parsed-looking error entry. -/
def sampleErrorEntry : LogEntry :=
  { timestamp := toL "17:13:30.548"
    level := toL "ERROR"
    source_file := toL "f.cpp"
    line_number := 78
    function_name := toL "Check"
    thread_id := toL "1"
    message := toL "boom"
    raw_line := toL "17:13:30.548 ERROR f.cpp 0078 Check 1 boom" }

/-- Fixture: an LLM oracle whose response is prose that parses as no JSON. -/
def llmEnvUnparsable : LlmEnv :=
  ⟨fun _ _ => .ok (toL "The analyzer failed."), fun _ _ => none⟩

/-- Fixture: an LLM oracle whose call raises. -/
def llmEnvRaising : LlmEnv :=
  ⟨fun _ _ => .error (toL "LLM connection failure"), fun _ _ => none⟩

/-- Fixture: an entry sharing `sampleErrorEntry`'s thread id and raw line
but differing in its message — the first-raw-line-match step picks it
instead of the target. -/
def sameRawDifferentEntry : LogEntry :=
  { sampleErrorEntry with message := toL "different" }

/-- The reference characterisation of the grouping: the first entry opens
the bucket of its key, collecting (in original order) every later entry
with the same key; the remaining entries are grouped recursively.  Buckets
therefore appear in first-occurrence order of their keys. -/
def bucketsSpec : List LogEntry → List (List Char × List LogEntry)
  | [] => []
  | e :: rest =>
    (bucketKey e, e :: rest.filter (fun x => decide (bucketKey x = bucketKey e))) ::
      bucketsSpec (rest.filter (fun x => !decide (bucketKey x = bucketKey e)))
termination_by l => l.length
decreasing_by
  simp only [List.length_cons]
  exact Nat.lt_succ_of_le (List.length_filter_le _ _)

/-- Fixture: an error entry whose source-file name contains a colon. -/
def colonFileEntry : LogEntry :=
  { timestamp := toL "17:13:30.548"
    level := toL "ERROR"
    source_file := toL "a:b"
    line_number := 1
    function_name := toL "c"
    thread_id := toL "1"
    message := toL "x"
    raw_line := toL "17:13:30.548 ERROR a:b 0001 c 1 x" }

/-- Fixture: an error entry with a different (file, function) pair whose
composite key string collides with `colonFileEntry`'s. -/
def colonFuncEntry : LogEntry :=
  { timestamp := toL "17:13:30.549"
    level := toL "ERROR"
    source_file := toL "a"
    line_number := 2
    function_name := toL "b:c"
    thread_id := toL "2"
    message := toL "y"
    raw_line := toL "17:13:30.549 ERROR a 0002 b:c 2 y" }

/-! ## Supporting lemmas -/

theorem dropWhile_head_not {p : Char → Bool} :
    ∀ (l : List Char) (c : Char), (l.dropWhile p).head? = some c → p c = false := by
  intro l
  induction l with
  | nil => intro c hc; simp at hc
  | cons a l' ih =>
    intro c hc
    by_cases ha : p a
    · rw [List.dropWhile_cons_of_pos ha] at hc
      exact ih c hc
    · rw [List.dropWhile_cons_of_neg ha] at hc
      simp only [List.head?_cons, Option.some.injEq] at hc
      subst hc
      exact Bool.eq_false_iff.2 ha

theorem takeWhile_append_of_allP {p : Char → Bool} :
    ∀ (tok rest : List Char), allP p tok →
      (∀ c, rest.head? = some c → p c = false) →
      (tok ++ rest).takeWhile p = tok ∧ (tok ++ rest).dropWhile p = rest := by
  intro tok
  induction tok with
  | nil =>
    intro rest _ hb
    cases rest with
    | nil => simp
    | cons r rs =>
      have hr := hb r (by simp)
      constructor
      · simp [List.takeWhile_cons, hr]
      · simp [List.dropWhile_cons, hr]
  | cons c tok' ih =>
    intro rest hall hb
    have hc : p c = true := hall c (by simp)
    have hih := ih rest (fun x hx => hall x (by simp [hx])) hb
    constructor
    · simp [List.takeWhile_cons, hc, hih.1]
    · simp [List.dropWhile_cons, hc, hih.2]

theorem takeWhile1_exact {p : Char → Bool} {tok rest : List Char}
    (hne : tok ≠ []) (hall : allP p tok)
    (hb : ∀ c, rest.head? = some c → p c = false) :
    takeWhile1 p (tok ++ rest) = some (tok, rest) := by
  obtain ⟨c, tok', rfl⟩ := List.exists_cons_of_ne_nil hne
  have hc : p c = true := hall c (by simp)
  have hsub := takeWhile_append_of_allP tok' rest (fun x hx => hall x (by simp [hx])) hb
  simp [takeWhile1, hc, hsub.1, hsub.2]

theorem takeWhile1_split {p : Char → Bool} {cs tok rest : List Char}
    (h : takeWhile1 p cs = some (tok, rest)) :
    cs = tok ++ rest ∧ tok ≠ [] ∧ allP p tok
      ∧ ∀ c, rest.head? = some c → p c = false := by
  unfold takeWhile1 at h
  cases cs with
  | nil => simp at h
  | cons c cs' =>
    by_cases hc : p c
    · simp only [hc, if_true, Option.some.injEq, Prod.mk.injEq] at h
      obtain ⟨h1, h2⟩ := h
      subst h1
      subst h2
      refine ⟨by simp, by simp, ?_, ?_⟩
      · intro x hx
        rcases List.mem_cons.1 hx with hx | hx
        · subst hx; exact hc
        · exact List.mem_takeWhile_imp hx
      · intro x hx
        exact dropWhile_head_not cs' x hx
    · simp [hc] at h

theorem pyWord_not_space {c : Char} (h : pyWord c = true) : pySpace c = false := by
  have h1 : ¬ c = ' ' := fun hc => by subst hc; exact absurd h (by decide)
  have h2 : ¬ c = '\t' := fun hc => by subst hc; exact absurd h (by decide)
  have h3 : ¬ c = '\n' := fun hc => by subst hc; exact absurd h (by decide)
  have h4 : ¬ c = '\r' := fun hc => by subst hc; exact absurd h (by decide)
  have h5 : ¬ c = Char.ofNat 11 := fun hc => by subst hc; exact absurd h (by decide)
  have h6 : ¬ c = Char.ofNat 12 := fun hc => by subst hc; exact absurd h (by decide)
  simp [pySpace, h1, h2, h3, h4, h5, h6]

theorem pyDigit_not_space {c : Char} (h : pyDigit c = true) : pySpace c = false := by
  have h1 : ¬ c = ' ' := fun hc => by subst hc; exact absurd h (by decide)
  have h2 : ¬ c = '\t' := fun hc => by subst hc; exact absurd h (by decide)
  have h3 : ¬ c = '\n' := fun hc => by subst hc; exact absurd h (by decide)
  have h4 : ¬ c = '\r' := fun hc => by subst hc; exact absurd h (by decide)
  have h5 : ¬ c = Char.ofNat 11 := fun hc => by subst hc; exact absurd h (by decide)
  have h6 : ¬ c = Char.ofNat 12 := fun hc => by subst hc; exact absurd h (by decide)
  simp [pySpace, h1, h2, h3, h4, h5, h6]

theorem pySpace_not_word {c : Char} (h : pySpace c = true) : pyWord c = false := by
  unfold pySpace at h
  simp only [Bool.or_eq_true, decide_eq_true_eq] at h
  rcases h with ((((h | h) | h) | h) | h) | h <;> subst h <;> decide

theorem parseTimestamp_split {cs ts rest : List Char}
    (h : parseTimestamp cs = some (ts, rest)) :
    cs = ts ++ rest ∧ TsShape ts := by
  unfold parseTimestamp at h
  split at h
  · rename_i c1 c2 k1 c3 c4 k2 c5 c6 d c7 c8 c9 r
    split at h
    · rename_i hall
      simp only [Bool.and_eq_true, decide_eq_true_eq] at hall
      simp only [Option.some.injEq, Prod.mk.injEq] at h
      obtain ⟨h1, h2⟩ := h
      subst h1
      subst h2
      obtain ⟨⟨⟨⟨⟨⟨⟨⟨⟨⟨⟨g1, g2⟩, g3⟩, g4⟩, g5⟩, g6⟩, g7⟩, g8⟩, g9⟩, g10⟩, g11⟩, g12⟩ := hall
      subst g3
      subst g6
      subst g9
      refine ⟨by simp, c1, c2, c3, c4, c5, c6, c7, c8, c9, rfl, ?_⟩
      intro x hx
      simp only [List.mem_cons, List.not_mem_nil, or_false] at hx
      rcases hx with rfl | rfl | rfl | rfl | rfl | rfl | rfl | rfl | rfl <;> assumption
    · simp at h
  · simp at h

theorem parseFourDigits_split {cs ds rest : List Char}
    (h : parseFourDigits cs = some (ds, rest)) :
    cs = ds ++ rest ∧ ds.length = 4 ∧ allP pyDigit ds := by
  unfold parseFourDigits at h
  split at h
  · rename_i d1 d2 d3 d4 r
    split at h
    · rename_i hall
      simp only [Bool.and_eq_true] at hall
      simp only [Option.some.injEq, Prod.mk.injEq] at h
      obtain ⟨h1, h2⟩ := h
      subst h1
      subst h2
      refine ⟨by simp, by simp, ?_⟩
      intro x hx
      rcases List.mem_cons.1 hx with hx | hx
      · subst hx; exact hall.1.1.1
      rcases List.mem_cons.1 hx with hx | hx
      · subst hx; exact hall.1.1.2
      rcases List.mem_cons.1 hx with hx | hx
      · subst hx; exact hall.1.2
      rcases List.mem_cons.1 hx with hx | hx
      · subst hx; exact hall.2
      · simp at hx
    · simp at h
  · simp at h

theorem takeWhile1_ne_nil {p : Char → Bool} {cs tok rest : List Char}
    (h : takeWhile1 p cs = some (tok, rest)) : tok ≠ [] := by
  unfold takeWhile1 at h
  match cs with
  | [] => exact absurd h (by simp)
  | c :: cs' =>
    by_cases hp : p c
    · simp [hp] at h
      rcases h with ⟨h1, _⟩
      simp [← h1]
    · simp [hp] at h

theorem pyDigit_toNat_le {c : Char} (h : pyDigit c = true) : c.toNat - 48 ≤ 9 := by
  unfold pyDigit at h
  simp only [Bool.and_eq_true, decide_eq_true_eq] at h
  rcases h with ⟨_, h2⟩
  have : c.toNat ≤ 57 := h2
  omega

theorem digitsToNat_four_le {d1 d2 d3 d4 : Char} (h1 : pyDigit d1 = true)
    (h2 : pyDigit d2 = true) (h3 : pyDigit d3 = true) (h4 : pyDigit d4 = true) :
    digitsToNat [d1, d2, d3, d4] ≤ 9999 := by
  have b1 := pyDigit_toNat_le h1
  have b2 := pyDigit_toNat_le h2
  have b3 := pyDigit_toNat_le h3
  have b4 := pyDigit_toNat_le h4
  simp only [digitsToNat, List.foldl]
  omega

theorem parseTimestamp_ne_nil {cs ts rest : List Char}
    (h : parseTimestamp cs = some (ts, rest)) : ts ≠ [] := by
  unfold parseTimestamp at h
  split at h
  · split at h
    · simp only [Option.some.injEq, Prod.mk.injEq] at h
      rcases h with ⟨h1, _⟩
      simp [← h1]
    · simp at h
  · simp at h

theorem parseFourDigits_le {cs ds rest : List Char}
    (h : parseFourDigits cs = some (ds, rest)) : digitsToNat ds ≤ 9999 := by
  unfold parseFourDigits at h
  split at h
  · split at h
    · rename_i hall
      simp only [Bool.and_eq_true] at hall
      simp only [Option.some.injEq, Prod.mk.injEq] at h
      rcases h with ⟨h1, _⟩
      rw [← h1]
      exact digitsToNat_four_le hall.1.1.1 hall.1.1.2 hall.1.2 hall.2
    · simp at h
  · simp at h

theorem matchLogPattern_groups {cs : List Char} {g : LogGroups}
    (h : matchLogPattern cs = some g) :
    g.timestamp ≠ [] ∧ g.level ≠ [] ∧ g.source_file ≠ [] ∧
      g.function_name ≠ [] ∧ g.thread_id ≠ [] ∧ digitsToNat g.line_digits ≤ 9999 := by
  unfold matchLogPattern at h
  simp only [Option.bind_eq_bind, Option.bind_eq_some, Option.pure_def,
    Option.some.injEq] at h
  obtain ⟨⟨ts, r1⟩, hts, ⟨w2, r2⟩, hw2, ⟨lvl, r3⟩, hlvl, ⟨w4, r4⟩, hw4,
    ⟨file, r5⟩, hfile, ⟨w6, r6⟩, hw6, ⟨digits, r7⟩, hdig, ⟨w8, r8⟩, hw8,
    ⟨func, r9⟩, hfunc, ⟨w9, r9w⟩, hw9, ⟨tid, r10⟩, htid, hg⟩ := h
  subst hg
  exact ⟨parseTimestamp_ne_nil hts, takeWhile1_ne_nil hlvl, takeWhile1_ne_nil hfile,
    takeWhile1_ne_nil hfunc, takeWhile1_ne_nil htid, parseFourDigits_le hdig⟩

theorem parse_log_line_raw_line {line : List Char} {e : LogEntry}
    (h : parse_log_line line = some e) : e.raw_line = pyStrip line := by
  unfold parse_log_line at h
  by_cases hb : pyStrip line = []
  · simp [hb] at h
  · simp only [hb, if_false] at h
    cases hm : matchLogPattern (pyStrip line) with
    | none => rw [hm] at h; exact absurd h (by simp)
    | some g =>
      rw [hm] at h
      simp only [Option.some.injEq] at h
      rw [← h]

theorem map_filterMap_sublist_map {α β γ : Type} (f : α → Option β) (g : β → γ)
    (k : α → γ) (H : ∀ x y, f x = some y → g y = k x) :
    ∀ l : List α, ((l.filterMap f).map g).Sublist (l.map k) := by
  intro l
  induction l with
  | nil => simp
  | cons x xs ih =>
    cases hf : f x with
    | none => simpa [List.filterMap_cons, hf] using ih.cons (k x)
    | some y =>
      simpa [List.filterMap_cons, hf, H x y hf] using ih.cons₂ (k x)

theorem parseTimestamp_exact {ts rest : List Char} (h : TsShape ts) :
    parseTimestamp (ts ++ rest) = some (ts, rest) := by
  obtain ⟨d1, d2, d3, d4, d5, d6, d7, d8, d9, rfl, hdig⟩ := h
  have h1 := hdig d1 (by simp)
  have h2 := hdig d2 (by simp)
  have h3 := hdig d3 (by simp)
  have h4 := hdig d4 (by simp)
  have h5 := hdig d5 (by simp)
  have h6 := hdig d6 (by simp)
  have h7 := hdig d7 (by simp)
  have h8 := hdig d8 (by simp)
  have h9 := hdig d9 (by simp)
  simp [parseTimestamp, h1, h2, h3, h4, h5, h6, h7, h8, h9]

theorem parseFourDigits_exact {ds rest : List Char} (hlen : ds.length = 4)
    (hall : allP pyDigit ds) : parseFourDigits (ds ++ rest) = some (ds, rest) := by
  match ds, hlen with
  | [d1, d2, d3, d4], _ =>
    have h1 := hall d1 (by simp)
    have h2 := hall d2 (by simp)
    have h3 := hall d3 (by simp)
    have h4 := hall d4 (by simp)
    simp [parseFourDigits, h1, h2, h3, h4]

theorem matchLogPattern_sound {cs : List Char} {g : LogGroups}
    (h : matchLogPattern cs = some g) : MatchesLogPattern cs := by
  unfold matchLogPattern at h
  simp only [Option.bind_eq_bind, Option.bind_eq_some, Option.pure_def,
    Option.some.injEq] at h
  obtain ⟨⟨ts, r1⟩, hts, ⟨w1, r2⟩, hw1, ⟨lvl, r3⟩, hlvl, ⟨w2, r4⟩, hw2,
    ⟨file, r5⟩, hfile, ⟨w3, r6⟩, hw3, ⟨dig, r7⟩, hdig, ⟨w4, r8⟩, hw4,
    ⟨func, r9⟩, hfunc, ⟨w5, r9w⟩, hw5, ⟨tid, r10⟩, htid, hg⟩ := h
  obtain ⟨hc0, hshape⟩ := parseTimestamp_split hts
  obtain ⟨hc1, hn1, ha1, _⟩ := takeWhile1_split hw1
  obtain ⟨hc2, hn2, ha2, _⟩ := takeWhile1_split hlvl
  obtain ⟨hc3, hn3, ha3, _⟩ := takeWhile1_split hw2
  obtain ⟨hc4, hn4, ha4, _⟩ := takeWhile1_split hfile
  obtain ⟨hc5, hn5, ha5, _⟩ := takeWhile1_split hw3
  obtain ⟨hc6, hlen, ha6⟩ := parseFourDigits_split hdig
  obtain ⟨hc7, hn7, ha7, _⟩ := takeWhile1_split hw4
  obtain ⟨hc8, hn8, ha8, _⟩ := takeWhile1_split hfunc
  obtain ⟨hc9, hn9, ha9, _⟩ := takeWhile1_split hw5
  obtain ⟨hc10, hn10, ha10, _⟩ := takeWhile1_split htid
  refine ⟨ts, w1, lvl, w2, file, w3, dig, w4, func, w5, tid,
    r10.takeWhile pySpace, r10.dropWhile pySpace, ?_, hshape,
    hn1, ha1, hn2, ha2, hn3, ha3, hn4, ha4, hn5, ha5, hlen, ha6,
    hn7, ha7, hn8, ha8, hn9, ha9, hn10, ha10, ?_⟩
  · subst hc0
    subst hc1
    subst hc2
    subst hc3
    subst hc4
    subst hc5
    subst hc6
    subst hc7
    subst hc8
    subst hc9
    subst hc10
    simp [List.takeWhile_append_dropWhile]
  · intro x hx
    exact List.mem_takeWhile_imp hx

theorem matchLogPattern_complete {cs : List Char} (h : MatchesLogPattern cs) :
    (matchLogPattern cs).isSome = true := by
  obtain ⟨ts, w1, lvl, w2, file, w3, dig, w4, func, w5, tid, w6, msg,
    hceq, hshape, hn1, ha1, hn2, ha2, hn3, ha3, hn4, ha4, hn5, ha5,
    hlen, ha6, hn7, ha7, hn8, ha8, hn9, ha9, hn10, ha10, _⟩ := h
  subst hceq
  obtain ⟨lc, lrest, rfl⟩ := List.exists_cons_of_ne_nil hn2
  obtain ⟨fc, frest, rfl⟩ := List.exists_cons_of_ne_nil hn4
  obtain ⟨uc, urest, rfl⟩ := List.exists_cons_of_ne_nil hn8
  obtain ⟨tc, trest, rfl⟩ := List.exists_cons_of_ne_nil hn10
  have hdne : dig ≠ [] := by
    intro hd
    rw [hd] at hlen
    simp at hlen
  obtain ⟨dc, drest, hdeq⟩ := List.exists_cons_of_ne_nil hdne
  have hb1 : ∀ c, (((lc :: lrest) : List Char) ++ (w2 ++ ((fc :: frest)
      ++ (w3 ++ (dig ++ (w4 ++ ((uc :: urest) ++ (w5 ++ ((tc :: trest)
      ++ (w6 ++ msg)))))))))).head? = some c → pySpace c = false := by
    intro c hc
    simp only [List.cons_append, List.head?_cons, Option.some.injEq] at hc
    subst hc
    exact pyWord_not_space (ha2 lc (by simp))
  have hb2 : ∀ c, (w2 ++ ((fc :: frest) ++ (w3 ++ (dig ++ (w4
      ++ ((uc :: urest) ++ (w5 ++ ((tc :: trest) ++ (w6 ++ msg))))))))).head? = some c →
      pyWord c = false := by
    intro c hc
    obtain ⟨s2, s2rest, rfl⟩ := List.exists_cons_of_ne_nil hn3
    simp only [List.cons_append, List.head?_cons, Option.some.injEq] at hc
    subst hc
    exact pySpace_not_word (ha3 s2 (by simp))
  have hb3 : ∀ c, (((fc :: frest) : List Char) ++ (w3 ++ (dig ++ (w4
      ++ ((uc :: urest) ++ (w5 ++ ((tc :: trest) ++ (w6 ++ msg)))))))).head? = some c →
      pySpace c = false := by
    intro c hc
    simp only [List.cons_append, List.head?_cons, Option.some.injEq] at hc
    subst hc
    have := ha4 fc (by simp)
    simpa using this
  have hb4 : ∀ c, (w3 ++ (dig ++ (w4 ++ ((uc :: urest) ++ (w5
      ++ ((tc :: trest) ++ (w6 ++ msg))))))).head? = some c →
      (!pySpace c) = false := by
    intro c hc
    obtain ⟨s3, s3rest, rfl⟩ := List.exists_cons_of_ne_nil hn5
    simp only [List.cons_append, List.head?_cons, Option.some.injEq] at hc
    subst hc
    simp [ha5 s3 (by simp)]
  have hb5 : ∀ c, (dig ++ (w4 ++ ((uc :: urest) ++ (w5 ++ ((tc :: trest)
      ++ (w6 ++ msg)))))).head? = some c → pySpace c = false := by
    intro c hc
    rw [hdeq] at hc
    simp only [List.cons_append, List.head?_cons, Option.some.injEq] at hc
    subst hc
    exact pyDigit_not_space (ha6 dc (by rw [hdeq]; simp))
  have hb7 : ∀ c, (((uc :: urest) : List Char) ++ (w5 ++ ((tc :: trest)
      ++ (w6 ++ msg)))).head? = some c → pySpace c = false := by
    intro c hc
    simp only [List.cons_append, List.head?_cons, Option.some.injEq] at hc
    subst hc
    have := ha8 uc (by simp)
    simpa using this
  have hb8 : ∀ c, (w5 ++ ((tc :: trest) ++ (w6 ++ msg))).head? = some c →
      (!pySpace c) = false := by
    intro c hc
    obtain ⟨s5, s5rest, rfl⟩ := List.exists_cons_of_ne_nil hn9
    simp only [List.cons_append, List.head?_cons, Option.some.injEq] at hc
    subst hc
    simp [ha9 s5 (by simp)]
  have hb9 : ∀ c, (((tc :: trest) : List Char) ++ (w6 ++ msg)).head? = some c →
      pySpace c = false := by
    intro c hc
    simp only [List.cons_append, List.head?_cons, Option.some.injEq] at hc
    subst hc
    exact pyDigit_not_space (ha10 tc (by simp))
  have e11 : takeWhile1 pyDigit ((tc :: trest) ++ (w6 ++ msg))
      = some (tc :: ((trest ++ (w6 ++ msg)).takeWhile pyDigit),
          (trest ++ (w6 ++ msg)).dropWhile pyDigit) := by
    have htc := ha10 tc (by simp)
    simp [takeWhile1, htc]
  simp only [matchLogPattern, Option.bind_eq_bind, List.append_assoc]
  rw [parseTimestamp_exact hshape]
  simp only [Option.some_bind]
  rw [takeWhile1_exact hn1 ha1 hb1]
  simp only [Option.some_bind]
  rw [takeWhile1_exact (List.cons_ne_nil lc lrest) ha2 hb2]
  simp only [Option.some_bind]
  rw [takeWhile1_exact hn3 ha3 hb3]
  simp only [Option.some_bind]
  rw [takeWhile1_exact (List.cons_ne_nil fc frest) ha4 hb4]
  simp only [Option.some_bind]
  rw [takeWhile1_exact hn5 ha5 hb5]
  simp only [Option.some_bind]
  rw [parseFourDigits_exact hlen ha6]
  simp only [Option.some_bind]
  rw [takeWhile1_exact hn7 ha7 hb7]
  simp only [Option.some_bind]
  rw [takeWhile1_exact (List.cons_ne_nil uc urest) ha8 hb8]
  simp only [Option.some_bind]
  rw [takeWhile1_exact hn9 ha9 hb9]
  simp only [Option.some_bind]
  rw [e11]
  simp

theorem matchLogPattern_isSome_iff (cs : List Char) :
    (matchLogPattern cs).isSome = true ↔ MatchesLogPattern cs := by
  constructor
  · intro h
    cases hm : matchLogPattern cs with
    | none => rw [hm] at h; simp at h
    | some g => exact matchLogPattern_sound hm
  · exact matchLogPattern_complete

/-! ## Claims about the log parser -/

/-- Claim C5 (confirmed).  For every input text: the parsed entries appear
in the same relative order as their originating lines (their raw lines form
a sublist of the stripped input lines, so each line yields at most one
entry); `parse_log_line` is a total function into `Option` (no exception is
ever raised); a line yields no entry exactly when it is blank after trimming
or fails the declarative fixed-field grammar `MatchesLogPattern` — in
particular the `int` conversion branch never discards a line; and the
deterministic maximal-munch matcher embedded from `LOG_PATTERN` succeeds
exactly on the lines the declarative grammar accepts. -/
theorem parser_preserves_order_and_discards_only_nonmatching (content : List Char) :
    ((parse_log_content content).map LogEntry.raw_line).Sublist
        ((pySplitOn '\n' content).map pyStrip)
    ∧ (∀ line : List Char, parse_log_line line = none ↔
        (pyStrip line = [] ∨ ¬ MatchesLogPattern (pyStrip line)))
    ∧ ∀ line : List Char, (matchLogPattern line).isSome = true ↔ MatchesLogPattern line := by
  refine ⟨?_, ?_, matchLogPattern_isSome_iff⟩
  · exact map_filterMap_sublist_map parse_log_line LogEntry.raw_line pyStrip
      (fun x y h => parse_log_line_raw_line h) (pySplitOn '\n' content)
  · intro line
    unfold parse_log_line
    by_cases hb : pyStrip line = []
    · simp [hb]
    · cases hm : matchLogPattern (pyStrip line) with
      | none =>
        have hnm : ¬ MatchesLogPattern (pyStrip line) := by
          intro hM
          have := matchLogPattern_complete hM
          rw [hm] at this
          simp at this
        simp [hb, hm, hnm]
      | some g =>
        have hM := matchLogPattern_sound hm
        simp [hb, hm, hM]

/-- Claim C6, counterexample.  The claim asserts every parsed entry has a
positive line number, but the four-digit field `0000` parses (Python
`int("0000")` is `0`), producing the non-positive line number 0. -/
theorem parsed_line_number_zero_counterexample :
    ¬ (∀ (line : List Char) (e : LogEntry),
        parse_log_line line = some e → 0 < e.line_number) := by
  intro h
  have h0 := h (toL "17:13:30.548 ERROR translator.cpp 0000 Check 1 boom")
  cases he : parse_log_line (toL "17:13:30.548 ERROR translator.cpp 0000 Check 1 boom") with
  | none => exact absurd he (by decide)
  | some e =>
    have hpos := h0 e he
    have hval : e.line_number = 0 := by
      have : (parse_log_line (toL "17:13:30.548 ERROR translator.cpp 0000 Check 1 boom")).map
          LogEntry.line_number = some 0 := by decide
      rw [he] at this
      simpa using this
    omega

/-- Claim C6 (corrected: the line number need not be positive — a `0000`
field yields 0 — but is a four-digit value, hence at most 9999).  Every
successfully parsed entry has non-empty timestamp, level, source file,
function name, thread id and raw line; the message may be empty. -/
theorem parsed_entry_fields_populated (line : List Char) (e : LogEntry)
    (h : parse_log_line line = some e) :
    e.timestamp ≠ [] ∧ e.level ≠ [] ∧ e.source_file ≠ [] ∧
      e.function_name ≠ [] ∧ e.thread_id ≠ [] ∧ e.raw_line ≠ [] ∧
      e.line_number ≤ 9999 := by
  unfold parse_log_line at h
  by_cases hb : pyStrip line = []
  · simp [hb] at h
  · simp only [hb, if_false] at h
    cases hm : matchLogPattern (pyStrip line) with
    | none => rw [hm] at h; exact absurd h (by simp)
    | some g =>
      rw [hm] at h
      simp only [Option.some.injEq] at h
      obtain ⟨hts, hlvl, hfile, hfunc, htid, hnum⟩ := matchLogPattern_groups hm
      subst h
      refine ⟨hts, ?_, hfile, hfunc, htid, hb, hnum⟩
      simpa [pyUpper] using hlvl

/-- Witness for the C6 theorem at the repository's own sample INFO line. -/
theorem parsed_entry_fields_populated_witness :
    ∃ e : LogEntry,
      parse_log_line (toL "17:13:30.548 INFO translator.cpp 0078 ProcessIncomin 58197610545000 STEP1") = some e
      ∧ (e.timestamp ≠ [] ∧ e.level ≠ [] ∧ e.source_file ≠ [] ∧
          e.function_name ≠ [] ∧ e.thread_id ≠ [] ∧ e.raw_line ≠ [] ∧
          e.line_number ≤ 9999) := by
  cases he : parse_log_line (toL "17:13:30.548 INFO translator.cpp 0078 ProcessIncomin 58197610545000 STEP1") with
  | none => exact absurd he (by decide)
  | some e => exact ⟨e, rfl, parsed_entry_fields_populated _ e he⟩

/-! ## Claims about the workflow routing -/

/-- Claim C1 (confirmed).  When the approval flag is false, the conditional
edge out of Generate-Fix routes to `next_error`, whose target node is
`advance_error` (never `create_pr`); and even the Remediation node itself,
run on such a state, performs no external mutation (creates no branch,
pushes no file, opens no pull request). -/
theorem no_remediation_without_approval (s : AgentState)
    (h : s.user_approved = false) :
    should_create_pr s = PrRoute.next_error
    ∧ createPrRouteTarget (should_create_pr s) = GraphNode.advance_error
    ∧ ∀ (cfg : GhConfig) (env : GhEnv), (create_pr_node cfg env s).2 = [] := by
  have hroute : should_create_pr s = PrRoute.next_error := by
    unfold should_create_pr
    simp [h]
  refine ⟨hroute, by rw [hroute]; rfl, ?_⟩
  intro cfg env
  unfold create_pr_node
  cases s.fix_proposal with
  | none => rfl
  | some fix => simp [h]

/-- Witness for the C1 theorem: the default state has `user_approved =
false`. -/
theorem no_remediation_without_approval_witness :
    should_create_pr (default : AgentState) = PrRoute.next_error
    ∧ createPrRouteTarget (should_create_pr (default : AgentState)) = GraphNode.advance_error
    ∧ (create_pr_node ⟨toL "t", toL "o/r", toL "main"⟩
        ⟨fun _ _ _ _ => true, fun _ _ _ _ _ _ => true, fun _ _ _ _ _ _ => some (toL "u"),
          fun _ => true, fun _ => .ok [], toL "TS"⟩ (default : AgentState)).2 = [] := by
  obtain ⟨h1, h2, h3⟩ := no_remediation_without_approval (default : AgentState) rfl
  exact ⟨h1, h2, h3 _ _⟩

/-- Claim C3 (confirmed; the `requires_pr` property is modelled from the
spec, models/fix_proposal.py being absent from src/).  A proposal with an
empty Code Change list is never routed to `create_pr`, even when approval is
true — the edge lands on `advance_error`; and conversely the `create_pr`
label is only ever produced for a proposal of kind code change carrying at
least one Code Change. -/
theorem empty_code_change_list_routes_to_advance (s : AgentState)
    (fp : FixProposal) (hfp : s.fix_proposal = some fp)
    (hempty : fp.code_changes = []) :
    should_create_pr s ≠ PrRoute.create_pr
    ∧ createPrRouteTarget (should_create_pr s) = GraphNode.advance_error
    ∧ ∀ s' : AgentState, should_create_pr s' = PrRoute.create_pr →
        ∃ fp' : FixProposal, s'.fix_proposal = some fp'
          ∧ fp'.fix_type = FixType.code_change ∧ fp'.code_changes ≠ [] := by
  have hreq : fp.requires_pr = false := by
    unfold FixProposal.requires_pr
    simp [hempty]
  have hroute : should_create_pr s ≠ PrRoute.create_pr ∧
      createPrRouteTarget (should_create_pr s) = GraphNode.advance_error := by
    unfold should_create_pr
    cases ha : s.user_approved with
    | false => simp [ha]; rfl
    | true => rw [hfp]; simp [ha, hreq]; rfl
  refine ⟨hroute.1, hroute.2, ?_⟩
  intro s' hs'
  unfold should_create_pr at hs'
  cases ha : s'.user_approved with
  | false => rw [ha] at hs'; simp at hs'
  | true =>
    rw [ha] at hs'
    cases hfix : s'.fix_proposal with
    | none => rw [hfix] at hs'; simp at hs'
    | some fp' =>
      rw [hfix] at hs'
      refine ⟨fp', rfl, ?_⟩
      by_cases hr : fp'.requires_pr
      · unfold FixProposal.requires_pr at hr
        simp only [Bool.and_eq_true, decide_eq_true_eq] at hr
        rcases hr with ⟨h1, h2⟩
        refine ⟨h1, fun hnil => ?_⟩
        rw [hnil] at h2
        simp at h2
      · simp [hr] at hs'

/-- Witness for the C3 theorem at a concrete approved state carrying a
proposal with an empty Code Change list. -/
theorem empty_code_change_list_routes_to_advance_witness :
    should_create_pr { (default : AgentState) with
        user_approved := true
        fix_proposal := some ⟨[], FixType.code_change, toL "t", toL "d", [], [], [],
          none, .fin 1, toL "low", []⟩ } ≠ PrRoute.create_pr
    ∧ createPrRouteTarget (should_create_pr { (default : AgentState) with
        user_approved := true
        fix_proposal := some ⟨[], FixType.code_change, toL "t", toL "d", [], [], [],
          none, .fin 1, toL "low", []⟩ }) = GraphNode.advance_error := by
  obtain ⟨h1, h2, _⟩ := empty_code_change_list_routes_to_advance
    { (default : AgentState) with
        user_approved := true
        fix_proposal := some ⟨[], FixType.code_change, toL "t", toL "d", [], [], [],
          none, .fin 1, toL "low", []⟩ }
    ⟨[], FixType.code_change, toL "t", toL "d", [], [], [], none, .fin 1, toL "low", []⟩
    rfl rfl
  exact ⟨h1, h2⟩

/-! ## Claim about the Advance operation -/

/-- Claim C10 (confirmed).  `advance_to_next_error` increments the cursor by
exactly one, resets exactly the per-issue fields (analysis result, fix
proposal, approval flag, and the three remediation outcome fields), and
leaves every other field of the Run State unchanged. -/
theorem advance_resets_per_issue_fields_only (s : AgentState) :
    (advance_to_next_error s).current_error_index = s.current_error_index + 1
    ∧ (advance_to_next_error s).current_error_report = none
    ∧ (advance_to_next_error s).fix_proposal = none
    ∧ (advance_to_next_error s).user_approved = false
    ∧ (advance_to_next_error s).pr_url = none
    ∧ (advance_to_next_error s).pr_created = false
    ∧ (advance_to_next_error s).pr_error = none
    ∧ (advance_to_next_error s).log_content = s.log_content
    ∧ (advance_to_next_error s).log_file_path = s.log_file_path
    ∧ (advance_to_next_error s).source_dir = s.source_dir
    ∧ (advance_to_next_error s).repo_root = s.repo_root
    ∧ (advance_to_next_error s).log_entries = s.log_entries
    ∧ (advance_to_next_error s).error_entries = s.error_entries
    ∧ (advance_to_next_error s).error_groups = s.error_groups
    ∧ (advance_to_next_error s).current_group_index = s.current_group_index
    ∧ (advance_to_next_error s).total_groups = s.total_groups
    ∧ (advance_to_next_error s).total_errors = s.total_errors
    ∧ (advance_to_next_error s).user_feedback = s.user_feedback
    ∧ (advance_to_next_error s).analysis_complete = s.analysis_complete
    ∧ (advance_to_next_error s).should_continue = s.should_continue :=
  ⟨rfl, rfl, rfl, rfl, rfl, rfl, rfl, rfl, rfl, rfl, rfl, rfl, rfl, rfl, rfl,
    rfl, rfl, rfl, rfl, rfl⟩

/-! ## Claim about the Remediation node's error handling -/

/-- Claim C8 (confirmed).  `create_pr_node` is a total state transformer —
every raise inside its `try` body is reflected as an `Except.error` that the
`except Exception` clause maps to a failure outcome — and on every input it
returns a state whose three outcome fields are populated coherently: either
a success with a result URL and no error message, or a failure with no URL
and an error message.  The only edge out of `create_pr` in the graph is the
unconditional one to `advance_error`, so the run advances to the next issue
regardless of the outcome. -/
theorem create_pr_never_raises_and_always_advances (cfg : GhConfig)
    (env : GhEnv) (s : AgentState) :
    (((create_pr_node cfg env s).1.pr_created = true
        ∧ (∃ url, (create_pr_node cfg env s).1.pr_url = some url)
        ∧ (create_pr_node cfg env s).1.pr_error = none)
      ∨ ((create_pr_node cfg env s).1.pr_created = false
        ∧ (create_pr_node cfg env s).1.pr_url = none
        ∧ ∃ msg, (create_pr_node cfg env s).1.pr_error = some msg))
    ∧ agentGraphEdges.filter (fun p => p.1 = GraphNode.create_pr)
        = [(GraphNode.create_pr, GraphNode.advance_error)] := by
  refine ⟨?_, by decide⟩
  unfold create_pr_node
  split
  · exact Or.inr ⟨rfl, rfl, ⟨_, rfl⟩⟩
  · split
    · exact Or.inr ⟨rfl, rfl, ⟨_, rfl⟩⟩
    · split
      · exact Or.inr ⟨rfl, rfl, ⟨_, rfl⟩⟩
      · split
        · exact Or.inr ⟨rfl, rfl, ⟨_, rfl⟩⟩
        · split
          · exact Or.inl ⟨rfl, ⟨_, rfl⟩, rfl⟩
          · exact Or.inr ⟨rfl, rfl, ⟨_, rfl⟩⟩

/-! ## Claims about the processing loop and the Analysis stage -/

theorem exceptBind_ok {α β ε : Type} (a : α) (f : α → Except ε β) :
    (Except.ok a >>= f) = f a := rfl

theorem exceptBind_error {α β ε : Type} (e : ε) (f : α → Except ε β) :
    ((Except.error e : Except ε α) >>= f) = Except.error e := rfl

theorem buildErrorReport_ok {analysis : Json} {primary : LogEntry}
    {related : List LogEntry} {src : Option (List Char)} {r : ErrorReport}
    (h : buildErrorReport analysis primary related src = .ok r) :
    r.primary_error = primary ∧ r.related_entries = related := by
  cases analysis with
  | obj kvs =>
    simp only [buildErrorReport] at h
    cases het : errorTypeFromJson (jsonGetD kvs (toL "error_type") (Json.str (toL "unknown"))) with
    | error e =>
      rw [het, exceptBind_error] at h
      exact Except.noConfusion h
    | ok et =>
      rw [het, exceptBind_ok] at h
      cases hcf : pyFloatOf (jsonGetD kvs (toL "confidence") (Json.num (1 / 2))) with
      | error e =>
        rw [hcf, exceptBind_error] at h
        exact Except.noConfusion h
      | ok conf =>
        rw [hcf, exceptBind_ok] at h
        have : Except.ok (ε := List Char)
            ({ primary_error := primary
               related_entries := related
               error_type := et
               is_code_issue := jsonGetD kvs (toL "is_code_issue") (Json.bool true)
               root_cause := jsonGetD kvs (toL "root_cause") (Json.str (toL "Unknown"))
               suggested_approach := jsonGetD kvs (toL "suggested_approach") (Json.str (toL "Unknown"))
               source_code_context := src
               confidence := conf } : ErrorReport) = .ok r := h
        cases this
        exact ⟨rfl, rfl⟩
  | null => simp [buildErrorReport] at h
  | bool b => simp [buildErrorReport] at h
  | num q => simp [buildErrorReport] at h
  | nan => simp [buildErrorReport] at h
  | inf neg => simp [buildErrorReport] at h
  | str s => simp [buildErrorReport] at h
  | arr xs => simp [buildErrorReport] at h

theorem analyze_error_sync_ok {env : LlmEnv} {e : LogEntry}
    {all : List LogEntry} {dir : List Char} {r : ErrorReport}
    (h : analyze_error_sync env e all dir = .ok r) :
    r.primary_error = e ∧ r.related_entries = group_related_entries all e 5 := by
  simp only [analyze_error_sync] at h
  cases hinv : env.invoke
      (pyJoin '\n' ((group_related_entries all e 5).map LogEntry.to_context_string))
      (env.getSourceCode e.source_file dir) with
  | error msg =>
    rw [hinv, exceptBind_error] at h
    exact Except.noConfusion h
  | ok resp =>
    rw [hinv, exceptBind_ok] at h
    exact buildErrorReport_ok h

/-- Claim C2, counterexample.  On a log whose two ERROR lines form a single
issue (one error group), the state produced by Parse has `total_groups = 1`
but the loop counter `total_errors = 2`; after one Advance the cursor equals
the issue count (1), yet `should_continue_processing` still answers
`analyze` — so the loop does not compare the cursor against the number of
issues, does not process one issue per Analyze step, and does not reach Done
when the cursor equals the issue count. -/
theorem loop_counts_errors_not_issues_counterexample :
    (parse_logs_node fsNone twoErrorsOneIssueState).map
        (fun s => (s.total_groups, s.error_groups.length, s.total_errors,
          should_continue_processing (advance_to_next_error s)))
      = Except.ok (1, 1, 2, ContinueRoute.analyze)
    ∧ ¬ (∀ s' : AgentState, parse_logs_node fsNone twoErrorsOneIssueState = Except.ok s' →
        (should_continue_processing (advance_to_next_error s') = ContinueRoute.done ↔
          (advance_to_next_error s').current_error_index = s'.error_groups.length)) := by
  refine ⟨rfl, ?_⟩
  intro h
  have h2 := h ((parse_logs_node fsNone twoErrorsOneIssueState).toOption.get!) rfl
  have h3 : ContinueRoute.analyze = ContinueRoute.done := h2.mpr rfl
  exact ContinueRoute.noConfusion h3

/-- Claim C2 (corrected: the loop iterates individual error entries, not
issues).  `should_continue_processing` answers `done` exactly when the
cursor has reached `total_errors` (the count of individual error entries set
by Parse); and whenever the Analysis node succeeds and stores a report, that
report's primary error is the single error entry at the cursor and its
related entries are the radius-5 same-thread window around that entry —
not an issue's group entries with their full context. -/
theorem loop_processes_single_errors :
    (∀ s : AgentState, should_continue_processing s = ContinueRoute.done
        ↔ s.total_errors ≤ s.current_error_index)
    ∧ ∀ (env : LlmEnv) (s s' : AgentState) (rep : ErrorReport),
        analyze_error_node env s = .ok s' →
        s'.current_error_report = some rep →
        ∃ h : s.current_error_index < s.error_entries.length,
          rep.primary_error = s.error_entries.get ⟨s.current_error_index, h⟩
          ∧ rep.related_entries = group_related_entries s.log_entries
              (s.error_entries.get ⟨s.current_error_index, h⟩) 5 := by
  constructor
  · intro s
    unfold should_continue_processing
    by_cases h : s.current_error_index < s.total_errors
    · simp only [h, if_true]
      constructor
      · intro hc; exact ContinueRoute.noConfusion hc
      · intro hle; exfalso; omega
    · simp only [h, if_false]
      constructor
      · intro _; omega
      · intro _; trivial
  · intro env s s' rep hok hrep
    unfold analyze_error_node at hok
    by_cases hlt : s.current_error_index < s.error_entries.length
    · rw [dif_pos hlt] at hok
      cases hs : analyze_error_sync env
          (s.error_entries.get ⟨s.current_error_index, hlt⟩) s.log_entries s.source_dir with
      | error msg =>
        rw [hs, exceptBind_error] at hok
        exact Except.noConfusion hok
      | ok rep' =>
        rw [hs, exceptBind_ok] at hok
        have hs' : Except.ok (ε := List Char)
            { s with current_error_report := some rep', analysis_complete := false } = .ok s' := hok
        cases hs'
        simp only [Option.some.injEq] at hrep
        subst hrep
        obtain ⟨h1, h2⟩ := analyze_error_sync_ok hs
        exact ⟨hlt, h1, h2⟩
    · rw [dif_neg hlt] at hok
      have hs' : Except.ok (ε := List Char)
          { s with current_error_report := none, analysis_complete := true } = .ok s' := hok
      cases hs'
      exact absurd hrep (by simp)

/-- Witness for the C2 theorem: a successful run of the Analysis node on a
one-error state stores a report for the entry at cursor 0. -/
theorem loop_processes_single_errors_witness :
    ∃ h : (0 : Nat) < ({ (default : AgentState) with
        error_entries := [sampleErrorEntry], total_errors := 1,
        log_entries := [sampleErrorEntry] } : AgentState).error_entries.length,
      (((analyze_error_node llmEnvUnparsable { (default : AgentState) with
          error_entries := [sampleErrorEntry], total_errors := 1,
          log_entries := [sampleErrorEntry] }).toOption.get!).current_error_report.get!).primary_error
        = ({ (default : AgentState) with
          error_entries := [sampleErrorEntry], total_errors := 1,
          log_entries := [sampleErrorEntry] } : AgentState).error_entries.get ⟨0, h⟩
      ∧ (((analyze_error_node llmEnvUnparsable { (default : AgentState) with
          error_entries := [sampleErrorEntry], total_errors := 1,
          log_entries := [sampleErrorEntry] }).toOption.get!).current_error_report.get!).related_entries
        = group_related_entries ({ (default : AgentState) with
            error_entries := [sampleErrorEntry], total_errors := 1,
            log_entries := [sampleErrorEntry] } : AgentState).log_entries
          (({ (default : AgentState) with
            error_entries := [sampleErrorEntry], total_errors := 1,
            log_entries := [sampleErrorEntry] } : AgentState).error_entries.get ⟨0, h⟩) 5 :=
  (loop_processes_single_errors).2 llmEnvUnparsable
    { (default : AgentState) with
        error_entries := [sampleErrorEntry], total_errors := 1,
        log_entries := [sampleErrorEntry] }
    ((analyze_error_node llmEnvUnparsable { (default : AgentState) with
        error_entries := [sampleErrorEntry], total_errors := 1,
        log_entries := [sampleErrorEntry] }).toOption.get!)
    (((analyze_error_node llmEnvUnparsable { (default : AgentState) with
        error_entries := [sampleErrorEntry], total_errors := 1,
        log_entries := [sampleErrorEntry] }).toOption.get!).current_error_report.get!)
    rfl rfl

/-- Claim C9, counterexample.  When the analysis collaborator's call itself
raises, the Analysis stage does not return a degraded report: the raw error
propagates out of `analyze_error_node` (there is no handler around
`llm.invoke`), contradicting "the raw collaborator error is never propagated
to the stage's caller". -/
theorem collaborator_exception_propagates_counterexample :
    analyze_error_node llmEnvRaising
        { (default : AgentState) with
            error_entries := [sampleErrorEntry], total_errors := 1,
            log_entries := [sampleErrorEntry] }
      = Except.error (toL "LLM connection failure") := by
  rfl

/-- Claim C9 (corrected: the degradation only covers unparsable collaborator
responses, not a raising collaborator call).  Whenever the collaborator call
returns a response on which `json.loads` fails and the brace-extraction
fallback also fails, the stage returns a well-formed report with category
`unknown`, confidence 0.0, and the root-cause string noting the parse
failure — no error escapes on that path. -/
theorem unparsable_response_degrades_gracefully (env : LlmEnv) (e : LogEntry)
    (all : List LogEntry) (dir : List Char) (resp : List Char)
    (hinv : env.invoke
        (pyJoin '\n' ((group_related_entries all e 5).map LogEntry.to_context_string))
        (env.getSourceCode e.source_file dir) = .ok resp)
    (hjson : jsonLoads (fenceStrippedText resp) = none)
    (hbrace : ∀ sub, braceSearch (fenceStrippedText resp) = some sub →
        jsonLoads sub = none) :
    analyze_error_sync env e all dir = .ok
      { primary_error := e
        related_entries := group_related_entries all e 5
        error_type := ErrorType.unknown
        is_code_issue := Json.bool true
        root_cause := Json.str (toL "Failed to parse LLM response")
        suggested_approach := Json.str (toL "Manual analysis required")
        source_code_context := env.getSourceCode e.source_file dir
        confidence := PyFloat.fin 0 } := by
  have hfb : parseLlmResponse resp = fallbackAnalysis := by
    unfold parseLlmResponse
    rw [hjson]
    cases hbs : braceSearch (fenceStrippedText resp) with
    | none => rfl
    | some sub =>
      have hnone := hbrace sub hbs
      simp [hnone]
  simp only [analyze_error_sync]
  rw [hinv, exceptBind_ok, hfb]
  rfl

/-- Witness for the C9 theorem: a collaborator answering plain prose. -/
theorem unparsable_response_degrades_gracefully_witness :
    analyze_error_sync llmEnvUnparsable sampleErrorEntry [sampleErrorEntry] (toL "src")
      = .ok
      { primary_error := sampleErrorEntry
        related_entries := group_related_entries [sampleErrorEntry] sampleErrorEntry 5
        error_type := ErrorType.unknown
        is_code_issue := Json.bool true
        root_cause := Json.str (toL "Failed to parse LLM response")
        suggested_approach := Json.str (toL "Manual analysis required")
        source_code_context := llmEnvUnparsable.getSourceCode sampleErrorEntry.source_file (toL "src")
        confidence := PyFloat.fin 0 } := by
  have hb : braceSearch (fenceStrippedText (toL "The analyzer failed.")) = none := by decide
  exact unparsable_response_degrades_gracefully llmEnvUnparsable sampleErrorEntry
    [sampleErrorEntry] (toL "src") (toL "The analyzer failed.") rfl rfl
    (fun sub h => by rw [hb] at h; cases h)

/-! ## Claims about the windowed context -/

theorem firstRawIdx_none_iff (raw : List Char) (l : List LogEntry) :
    firstRawIdx raw l = none ↔ ∀ e ∈ l, e.raw_line ≠ raw := by
  induction l with
  | nil => simp [firstRawIdx]
  | cons x xs ih =>
    unfold firstRawIdx
    by_cases hx : x.raw_line = raw
    · simp [hx]
    · simp [hx, Option.map_eq_none', ih]

theorem firstRawIdx_some {raw : List Char} {l : List LogEntry} {i : Nat}
    (h : firstRawIdx raw l = some i) :
    ∃ hlt : i < l.length, (l.get ⟨i, hlt⟩).raw_line = raw := by
  induction l generalizing i with
  | nil => simp [firstRawIdx] at h
  | cons x xs ih =>
    unfold firstRawIdx at h
    by_cases hx : x.raw_line = raw
    · simp only [hx, if_true, Option.some.injEq] at h
      subst h
      exact ⟨by simp, hx⟩
    · simp only [hx, if_false, Option.map_eq_some'] at h
      obtain ⟨j, hj, hji⟩ := h
      obtain ⟨hlt, hraw⟩ := ih hj
      subst hji
      exact ⟨Nat.succ_lt_succ hlt, by simpa using hraw⟩

theorem get_mem_drop_take {α : Type} :
    ∀ (l : List α) (s n i : Nat) (h : i < l.length),
      s ≤ i → i < s + n → l.get ⟨i, h⟩ ∈ (l.drop s).take n := by
  intro l
  induction l with
  | nil => intro s n i h; simp at h
  | cons x xs ih =>
    intro s n i h hsi hin
    cases s with
    | zero =>
      cases i with
      | zero =>
        cases n with
        | zero => omega
        | succ m => simp
      | succ j =>
        cases n with
        | zero => omega
        | succ m =>
          have hmem := ih 0 m j (by simpa using h) (Nat.zero_le _) (by omega)
          simp only [List.drop_zero] at hmem
          simpa using List.mem_cons_of_mem x hmem
    | succ t =>
      cases i with
      | zero => omega
      | succ j =>
        have hmem := ih t n j (by simpa using h) (by omega) (by omega)
        simpa using hmem

/-- Claim C7 (corrected: the returned slice need not contain the target
itself — the locate-by-raw-line step may land on a different entry with the
same raw line — but it always contains an entry whose raw line equals the
target's).  For every entry list, target and radius: the result has at most
`2r + 1` entries; it contains an entry carrying the target's raw line; and
when no same-thread entry matches the target's raw line exactly, the result
is the singleton `[target]`. -/
theorem windowed_context_bound (entries : List LogEntry) (target : LogEntry)
    (r : Nat) :
    (group_related_entries entries target r).length ≤ 2 * r + 1
    ∧ (∃ e, e ∈ group_related_entries entries target r
        ∧ e.raw_line = target.raw_line)
    ∧ ((∀ e ∈ entries, e.thread_id = target.thread_id →
          e.raw_line ≠ target.raw_line) →
        group_related_entries entries target r = [target]) := by
  cases hidx : firstRawIdx target.raw_line
      (entries.filter (fun e => e.thread_id = target.thread_id)) with
  | none =>
    have hres : group_related_entries entries target r = [target] := by
      simp only [group_related_entries, hidx]
    rw [hres]
    refine ⟨by simp only [List.length_cons, List.length_nil]; omega,
      ⟨target, by simp⟩, fun _ => rfl⟩
  | some idx =>
    obtain ⟨hlt, hraw⟩ := firstRawIdx_some hidx
    have hres : group_related_entries entries target r =
        ((entries.filter (fun e => e.thread_id = target.thread_id)).drop (idx - r)).take
          (min (entries.filter (fun e => e.thread_id = target.thread_id)).length
            (idx + r + 1) - (idx - r)) := by
      simp only [group_related_entries, hidx]
    rw [hres]
    have hL := hlt
    refine ⟨?_, ?_, ?_⟩
    · rw [List.length_take, List.length_drop]
      omega
    · refine ⟨(entries.filter (fun e => e.thread_id = target.thread_id)).get ⟨idx, hlt⟩,
        get_mem_drop_take _ _ _ _ hlt (by omega) (by omega), hraw⟩
    · intro hnone
      exfalso
      have : firstRawIdx target.raw_line
          (entries.filter (fun e => e.thread_id = target.thread_id)) = none := by
        rw [firstRawIdx_none_iff]
        intro e he
        rw [List.mem_filter] at he
        exact hnone e he.1 (by simpa using he.2)
      rw [this] at hidx
      exact Option.noConfusion hidx

/-- Witness for the C7 theorem at a one-element list around its own entry. -/
theorem windowed_context_bound_witness :
    (group_related_entries [sampleErrorEntry] sampleErrorEntry 0).length ≤ 2 * 0 + 1
    ∧ (∃ e, e ∈ group_related_entries [sampleErrorEntry] sampleErrorEntry 0
        ∧ e.raw_line = sampleErrorEntry.raw_line)
    ∧ ((∀ e ∈ [sampleErrorEntry], e.thread_id = sampleErrorEntry.thread_id →
          e.raw_line ≠ sampleErrorEntry.raw_line) →
        group_related_entries [sampleErrorEntry] sampleErrorEntry 0 = [sampleErrorEntry]) :=
  windowed_context_bound [sampleErrorEntry] sampleErrorEntry 0

/-- Claim C7, counterexample.  The returned slice does not always contain
the target: locating the target by exact raw-line match (first match wins)
can land on a distinct entry that shares the target's raw line, and the
returned window then omits the target itself. -/
theorem windowed_context_misses_target_counterexample :
    ¬ (∀ (entries : List LogEntry) (target : LogEntry) (r : Nat),
        target ∈ group_related_entries entries target r) := by
  intro h
  exact absurd (h [sameRawDifferentEntry] sampleErrorEntry 0) (by decide)

/-! ## Claims about the issue grouper -/

theorem bucketsSpec_key_mem :
    ∀ (n : Nat) (l : List LogEntry), l.length ≤ n →
      ∀ b ∈ bucketsSpec l, b.1 ∈ l.map bucketKey := by
  intro n
  induction n with
  | zero =>
    intro l hl b hb
    have : l = [] := List.eq_nil_of_length_eq_zero (Nat.le_zero.1 hl)
    subst this
    simp [bucketsSpec] at hb
  | succ m ih =>
    intro l hl b hb
    match l with
    | [] => simp [bucketsSpec] at hb
    | f :: rest =>
      rw [bucketsSpec] at hb
      rw [List.mem_cons] at hb
      rcases hb with hb | hb
      · subst hb
        simp
      · have hlen : (rest.filter (fun x => !decide (bucketKey x = bucketKey f))).length ≤ m := by
          have h1 := List.length_filter_le (fun x => !decide (bucketKey x = bucketKey f)) rest
          simp only [List.length_cons] at hl
          omega
        have hk := ih _ hlen b hb
        obtain ⟨x, hx, hxk⟩ := List.mem_map.1 hk
        exact List.mem_map.2 ⟨x, List.mem_cons_of_mem f (List.mem_of_mem_filter hx), hxk⟩

theorem addToBuckets_bucketsSpec :
    ∀ (n : Nat) (p : List LogEntry), p.length ≤ n → ∀ e : LogEntry,
      addToBuckets (bucketsSpec p) e = bucketsSpec (p ++ [e]) := by
  intro n
  induction n with
  | zero =>
    intro p hp e
    have : p = [] := List.eq_nil_of_length_eq_zero (Nat.le_zero.1 hp)
    subst this
    simp [bucketsSpec, addToBuckets]
  | succ m ih =>
    intro p hp e
    match p with
    | [] => simp [bucketsSpec, addToBuckets]
    | f :: rest =>
      have hlen : (rest.filter (fun x => !decide (bucketKey x = bucketKey f))).length ≤ m := by
        have h1 := List.length_filter_le (fun x => !decide (bucketKey x = bucketKey f)) rest
        simp only [List.length_cons] at hp
        omega
      rw [bucketsSpec]
      rw [show (f :: rest) ++ [e] = f :: (rest ++ [e]) from rfl, bucketsSpec]
      by_cases hk : bucketKey e = bucketKey f
      · -- the head bucket absorbs the new entry; the tail is untouched
        have hany : ((bucketKey f, f :: rest.filter (fun x => decide (bucketKey x = bucketKey f))) ::
            bucketsSpec (rest.filter (fun x => !decide (bucketKey x = bucketKey f)))).any
              (fun b => b.1 = bucketKey e) = true := by
          simp [hk]
        rw [addToBuckets, if_pos hany]
        have htail : (bucketsSpec (rest.filter (fun x => !decide (bucketKey x = bucketKey f)))).map
            (fun b => if b.1 = bucketKey e then (b.1, b.2 ++ [e]) else b)
            = bucketsSpec (rest.filter (fun x => !decide (bucketKey x = bucketKey f))) := by
          have : ∀ b ∈ bucketsSpec (rest.filter (fun x => !decide (bucketKey x = bucketKey f))),
              (if b.1 = bucketKey e then (b.1, b.2 ++ [e]) else b) = b := by
            intro b hb
            have hbk := bucketsSpec_key_mem _ _ hlen b hb
            obtain ⟨x, hx, hxk⟩ := List.mem_map.1 hbk
            have hxf := (List.mem_filter.1 hx).2
            have : ¬ b.1 = bucketKey e := by
              rw [← hxk, hk]
              simpa using hxf
            simp [this]
          calc (bucketsSpec (rest.filter (fun x => !decide (bucketKey x = bucketKey f)))).map
                (fun b => if b.1 = bucketKey e then (b.1, b.2 ++ [e]) else b)
              = (bucketsSpec (rest.filter (fun x => !decide (bucketKey x = bucketKey f)))).map id := by
                exact List.map_congr_left this
            _ = _ := List.map_id _
        have hfilt1 : (rest ++ [e]).filter (fun x => decide (bucketKey x = bucketKey f))
            = rest.filter (fun x => decide (bucketKey x = bucketKey f)) ++ [e] := by
          rw [List.filter_append]
          simp [hk]
        have hfilt2 : (rest ++ [e]).filter (fun x => !decide (bucketKey x = bucketKey f))
            = rest.filter (fun x => !decide (bucketKey x = bucketKey f)) := by
          rw [List.filter_append]
          simp [hk]
        simp only [List.map_cons, htail, hfilt1, hfilt2]
        have hself : bucketKey f = bucketKey e := hk.symm
        simp [hself, hfilt1]
      · -- the head bucket ignores the new entry; recurse into the tail
        have hhead : (decide ((bucketKey f, f :: rest.filter
            (fun x => decide (bucketKey x = bucketKey f))).1 = bucketKey e)) = false := by
          simp only [decide_eq_false_iff_not]
          exact fun hc => hk (hc.symm)
        have hfilt1 : (rest ++ [e]).filter (fun x => decide (bucketKey x = bucketKey f))
            = rest.filter (fun x => decide (bucketKey x = bucketKey f)) := by
          rw [List.filter_append]
          simp [hk]
        have hfilt2 : (rest ++ [e]).filter (fun x => !decide (bucketKey x = bucketKey f))
            = rest.filter (fun x => !decide (bucketKey x = bucketKey f)) ++ [e] := by
          rw [List.filter_append]
          simp [hk]
        have hih := ih _ hlen e
        rw [addToBuckets] at hih ⊢
        simp only [List.any_cons, hhead, Bool.false_or]
        by_cases hany : (bucketsSpec (rest.filter
            (fun x => !decide (bucketKey x = bucketKey f)))).any (fun b => b.1 = bucketKey e)
        · rw [if_pos hany] at hih
          rw [if_pos hany]
          simp only [List.map_cons, hfilt1, hfilt2, ← hih]
          have : (if (bucketKey f, f :: rest.filter (fun x => decide (bucketKey x = bucketKey f))).1
              = bucketKey e then ((bucketKey f, f :: rest.filter (fun x => decide (bucketKey x = bucketKey f))).1,
                (bucketKey f, f :: rest.filter (fun x => decide (bucketKey x = bucketKey f))).2 ++ [e])
              else (bucketKey f, f :: rest.filter (fun x => decide (bucketKey x = bucketKey f))))
              = (bucketKey f, f :: rest.filter (fun x => decide (bucketKey x = bucketKey f))) := by
            have : ¬ (bucketKey f, f :: rest.filter (fun x => decide (bucketKey x = bucketKey f))).1
                = bucketKey e := fun hc => hk hc.symm
            simp [this]
          rw [this]
        · rw [if_neg hany] at hih
          rw [if_neg hany]
          simp only [hfilt1, hfilt2, ← hih, List.cons_append]

theorem foldl_addToBuckets (l : List LogEntry) :
    ∀ p : List LogEntry, l.foldl addToBuckets (bucketsSpec p) = bucketsSpec (p ++ l) := by
  induction l with
  | nil => intro p; simp
  | cons e rest ih =>
    intro p
    rw [List.foldl_cons, addToBuckets_bucketsSpec p.length p (Nat.le_refl _) e,
      ih (p ++ [e]), List.append_assoc]
    rfl

theorem group_errors_by_context_eq_bucketsSpec (entries errors : List LogEntry) :
    group_errors_by_context entries errors = (bucketsSpec errors).map Prod.snd := by
  unfold group_errors_by_context
  by_cases h : errors.isEmpty
  · have : errors = [] := by
      cases errors with
      | nil => rfl
      | cons a l => simp [List.isEmpty] at h
    subst this
    simp [bucketsSpec]
  · have hfold : errors.foldl addToBuckets [] = bucketsSpec errors := by
      have := foldl_addToBuckets errors []
      simpa [bucketsSpec] using this
    simp [h, hfold]

theorem bucketsSpec_join_perm :
    ∀ (n : Nat) (l : List LogEntry), l.length ≤ n →
      ((bucketsSpec l).map Prod.snd).join.Perm l := by
  intro n
  induction n with
  | zero =>
    intro l hl
    have : l = [] := List.eq_nil_of_length_eq_zero (Nat.le_zero.1 hl)
    subst this
    simp [bucketsSpec]
  | succ m ih =>
    intro l hl
    match l with
    | [] => simp [bucketsSpec]
    | f :: rest =>
      have hlen : (rest.filter (fun x => !decide (bucketKey x = bucketKey f))).length ≤ m := by
        have h1 := List.length_filter_le (fun x => !decide (bucketKey x = bucketKey f)) rest
        simp only [List.length_cons] at hl
        omega
      rw [bucketsSpec]
      simp only [List.map_cons, List.join_cons]
      have hperm := ih _ hlen
      refine List.Perm.trans ?_
        ((List.filter_append_perm (fun x => decide (bucketKey x = bucketKey f)) rest).cons f)
      exact (hperm.append_left (rest.filter (fun x => decide (bucketKey x = bucketKey f)))).cons f

theorem bucketsSpec_keys_nodup :
    ∀ (n : Nat) (l : List LogEntry), l.length ≤ n →
      ((bucketsSpec l).map Prod.fst).Nodup := by
  intro n
  induction n with
  | zero =>
    intro l hl
    have : l = [] := List.eq_nil_of_length_eq_zero (Nat.le_zero.1 hl)
    subst this
    simp [bucketsSpec]
  | succ m ih =>
    intro l hl
    match l with
    | [] => simp [bucketsSpec]
    | f :: rest =>
      have hlen : (rest.filter (fun x => !decide (bucketKey x = bucketKey f))).length ≤ m := by
        have h1 := List.length_filter_le (fun x => !decide (bucketKey x = bucketKey f)) rest
        simp only [List.length_cons] at hl
        omega
      rw [bucketsSpec]
      simp only [List.map_cons, List.nodup_cons]
      refine ⟨?_, ih _ hlen⟩
      intro hmem
      obtain ⟨b, hb, hbk⟩ := List.mem_map.1 hmem
      have hk := bucketsSpec_key_mem _ _ hlen b hb
      obtain ⟨x, hx, hxk⟩ := List.mem_map.1 hk
      have hxf := (List.mem_filter.1 hx).2
      rw [hbk] at hxk
      simp [hxk] at hxf

theorem bucketsSpec_groups_are_filters :
    ∀ (n : Nat) (l : List LogEntry), l.length ≤ n →
      ∀ g ∈ (bucketsSpec l).map Prod.snd,
        g ≠ [] ∧ ∃ k, g = l.filter (fun x => decide (bucketKey x = k)) := by
  intro n
  induction n with
  | zero =>
    intro l hl g hg
    have : l = [] := List.eq_nil_of_length_eq_zero (Nat.le_zero.1 hl)
    subst this
    simp [bucketsSpec] at hg
  | succ m ih =>
    intro l hl g hg
    match l with
    | [] => simp [bucketsSpec] at hg
    | f :: rest =>
      have hlen : (rest.filter (fun x => !decide (bucketKey x = bucketKey f))).length ≤ m := by
        have h1 := List.length_filter_le (fun x => !decide (bucketKey x = bucketKey f)) rest
        simp only [List.length_cons] at hl
        omega
      rw [bucketsSpec] at hg
      simp only [List.map_cons] at hg
      rw [List.mem_cons] at hg
      rcases hg with hg | hg
      · refine ⟨by simp [hg], bucketKey f, ?_⟩
        rw [hg, List.filter_cons]
        simp
      · obtain ⟨hne, k, hk⟩ := ih _ hlen g hg
        -- the key of a tail group differs from the head key
        have hkf : ¬ k = bucketKey f := by
          cases hgx : g with
          | nil => exact absurd hgx hne
          | cons a as =>
            have ha : a ∈ g := by rw [hgx]; exact List.mem_cons_self a as
            rw [hk] at ha
            have h1 := (List.mem_filter.1 ha).1
            have h2 := (List.mem_filter.1 ha).2
            have h3 := (List.mem_filter.1 h1).2
            simp only [decide_eq_true_eq] at h2
            simp only [Bool.not_eq_true', decide_eq_false_iff_not] at h3
            rw [← h2]
            exact h3
        refine ⟨hne, k, ?_⟩
        rw [hk, List.filter_filter]
        have hstep : rest.filter (fun x =>
            decide (bucketKey x = k) && !decide (bucketKey x = bucketKey f))
            = rest.filter (fun x => decide (bucketKey x = k)) := by
          apply List.filter_congr
          intro x _
          by_cases hx : bucketKey x = k
          · simp [hx, hkf]
          · simp [hx]
        rw [hstep]
        have : (f :: rest).filter (fun x => decide (bucketKey x = k))
            = rest.filter (fun x => decide (bucketKey x = k)) := by
          rw [List.filter_cons]
          have : ¬ bucketKey f = k := fun hc => hkf hc.symm
          simp [this]
        rw [this]

/-- Claim C4 (corrected: members of a group share the composite string key
`source_file:function_name`, which need not determine the (source file,
function name) pair — a colon inside a file name collides with the
separator).  The grouping is a partition of the error list: the
concatenation of the groups is a permutation of the input (so no entry is
lost, duplicated or placed in two groups), the groups' keys are pairwise
distinct and appear in first-occurrence order (the equation with
`bucketsSpec`), every group is non-empty, and every group is exactly the
subsequence of the input carrying one key — so the original order is
preserved inside each group. -/
theorem grouping_partitions_errors (entries errors : List LogEntry) :
    group_errors_by_context entries errors = (bucketsSpec errors).map Prod.snd
    ∧ (group_errors_by_context entries errors).join.Perm errors
    ∧ ((bucketsSpec errors).map Prod.fst).Nodup
    ∧ ∀ g ∈ group_errors_by_context entries errors,
        g ≠ [] ∧ (∃ k, g = errors.filter (fun x => decide (bucketKey x = k)))
        ∧ g.Sublist errors
        ∧ ∀ a ∈ g, ∀ b ∈ g, bucketKey a = bucketKey b := by
  have heq := group_errors_by_context_eq_bucketsSpec entries errors
  refine ⟨heq, ?_, bucketsSpec_keys_nodup errors.length errors (Nat.le_refl _), ?_⟩
  · rw [heq]
    exact bucketsSpec_join_perm errors.length errors (Nat.le_refl _)
  · intro g hg
    rw [heq] at hg
    obtain ⟨hne, k, hk⟩ := bucketsSpec_groups_are_filters errors.length errors
      (Nat.le_refl _) g hg
    refine ⟨hne, ⟨k, hk⟩, by rw [hk]; exact List.filter_sublist _, ?_⟩
    intro a ha b hb
    rw [hk] at ha hb
    have ha2 := (List.mem_filter.1 ha).2
    have hb2 := (List.mem_filter.1 hb).2
    simp only [decide_eq_true_eq] at ha2 hb2
    rw [ha2, hb2]

/-- Witness instance of the C4 theorem on a concrete error list with two
keys. -/
theorem grouping_partitions_errors_witness :
    (group_errors_by_context [] [sampleErrorEntry, sameRawDifferentEntry]).join.Perm
        [sampleErrorEntry, sameRawDifferentEntry]
    ∧ ∀ g ∈ group_errors_by_context [] [sampleErrorEntry, sameRawDifferentEntry],
        g ≠ [] ∧ (∃ k, g = [sampleErrorEntry, sameRawDifferentEntry].filter
          (fun x => decide (bucketKey x = k)))
        ∧ g.Sublist [sampleErrorEntry, sameRawDifferentEntry]
        ∧ ∀ a ∈ g, ∀ b ∈ g, bucketKey a = bucketKey b :=
  ⟨(grouping_partitions_errors [] [sampleErrorEntry, sameRawDifferentEntry]).2.1,
    (grouping_partitions_errors [] [sampleErrorEntry, sameRawDifferentEntry]).2.2.2⟩

/-- Claim C4, counterexample.  The bucketing key is the string
`f"{source_file}:{function_name}"`, which is not injective in the (source
file, function name) pair: the entries `("a:b", "c")` and `("a", "b:c")`
(both producible by the parser, since `\S+` admits colons) are merged into
one group although they agree on neither the source file nor the function
name — so a group's members need not share one (source file, function name)
key. -/
theorem grouping_key_collision_counterexample :
    group_errors_by_context [] [colonFileEntry, colonFuncEntry]
        = [[colonFileEntry, colonFuncEntry]]
    ∧ ¬ colonFileEntry.source_file = colonFuncEntry.source_file
    ∧ ¬ colonFileEntry.function_name = colonFuncEntry.function_name := by
  refine ⟨by decide, by decide, by decide⟩

end LogAgent
